import Mathlib

/-!
Verification development for the kindle2notion sync engine
(src/kindle2notion/exporting.py).

Python strings are modelled as lists of characters (`Str`); the Python
string operations used by the code (strip, lower, slicing, split, replace,
join, membership) are defined below as executable functions on `Str`.
Python sets are modelled as lists with membership-guarded insertion.
Remote I/O (the Notion client, the Google Books lookup) is modelled by
passing the drained remote data in as values and by recording the writes
the code issues as a list of `SyncAction`s; exceptions raised by remote
calls are modelled as explicit failure flags / `Option` results.
-/

set_option maxRecDepth 10000

namespace Kindle2Notion

/-- Python strings, modelled as lists of characters. -/
abbrev Str := List Char

/-- Does `pat` occur at the very start of `s`? (helper for substring search). -/
def startsWithL : Str → Str → Bool
  | [], _ => true
  | _ :: _, [] => false
  | p :: ps, c :: cs => p == c && startsWithL ps cs

/-- Find the first occurrence of `pat` in `s`; returns the part before the
occurrence and the part after it.  `none` when `pat` does not occur. -/
def breakOn (pat : Str) : Str → Option (Str × Str)
  | [] => if pat.isEmpty then some ([], []) else none
  | c :: rest =>
    if startsWithL pat (c :: rest) then some ([], (c :: rest).drop pat.length)
    else
      match breakOn pat rest with
      | some (pre, post) => some (c :: pre, post)
      | none => none

/-- Python `pat in s` (substring containment). -/
def containsL (pat s : Str) : Bool := (breakOn pat s).isSome

/-- Fuel-driven worker for `splitOnL` (fuel `s.length` always suffices). -/
def splitOnFuel (pat : Str) : Nat → Str → List Str
  | 0, s => [s]
  | Nat.succ f, s =>
    match breakOn pat s with
    | none => [s]
    | some (pre, post) => pre :: splitOnFuel pat f post

/-- Python `s.split(pat)` for a non-empty separator `pat`. -/
def splitOnL (pat s : Str) : List Str := splitOnFuel pat s.length s

/-- Python `sep.join(parts)`. -/
def joinSep (sep : Str) : List Str → Str
  | [] => []
  | [x] => x
  | x :: y :: rest => x ++ sep ++ joinSep sep (y :: rest)

/-- Python `s.replace(pat, repl)` (non-empty `pat`). -/
def replaceAll (pat repl s : Str) : Str := joinSep repl (splitOnL pat s)

/-- Python `s.lower()` (character-wise). -/
def strLower (s : Str) : Str := s.map Char.toLower

/-- Python `s.strip()`: drop whitespace from both ends. -/
def strTrim (s : Str) : Str :=
  ((s.dropWhile Char.isWhitespace).reverse.dropWhile Char.isWhitespace).reverse

/-! ## ClippingNormalizer (`_prepare_aggregated_text_for_one_book`) -/

/-- One raw clipping tuple `(text, page, location, date, is_note)` as handed
to `_prepare_aggregated_text_for_one_book`. -/
structure RawClipping where
  text : Str
  page : Str
  location : Str
  date : Str
  is_note : Bool
deriving DecidableEq, Repr

/-- The clipping dictionary built by `_prepare_aggregated_text_for_one_book`. -/
structure ClippingData where
  text : Str
  page : Str
  location : Str
  date : Str
  is_note : Bool
  id : Str
deriving DecidableEq, Repr

/-- The identity the code computes:
`f"{text.strip()[:50].lower()}|{location}|{page}".strip()`. -/
def clipping_id_of (text location page : Str) : Str :=
  strTrim (strLower (List.take 50 (strTrim text)) ++ "|".data ++ location ++ "|".data ++ page)

/-- The identity formula as the spec words it (claim C2):
`lowercase(trim(text))[:50] + "|" + location + "|" + page`, with no final
strip of the composed key. -/
def specClippingIdentity (text location page : Str) : Str :=
  List.take 50 (strLower (strTrim text)) ++ "|".data ++ location ++ "|".data ++ page

/-- Loop state of `_prepare_aggregated_text_for_one_book`: the accumulated
output list, the `seen_ids` set, the duplicate counter, and the
`last_date` local variable (`none` = still unassigned). -/
structure PrepareState where
  formatted : List ClippingData
  seen_ids : List Str
  duplicates_removed : Nat
  last_date : Option Str
deriving DecidableEq, Repr

/-- One iteration of the loop body of `_prepare_aggregated_text_for_one_book`. -/
def prepareStep (st : PrepareState) (c : RawClipping) : PrepareState :=
  let cid := clipping_id_of c.text c.location c.page
  if cid ∈ st.seen_ids then
    { st with duplicates_removed := st.duplicates_removed + 1 }
  else
    { formatted := st.formatted ++ [⟨c.text, c.page, c.location, c.date, c.is_note, cid⟩]
      seen_ids := cid :: st.seen_ids
      duplicates_removed := st.duplicates_removed
      last_date := some c.date }

/-- The whole loop of `_prepare_aggregated_text_for_one_book`. -/
def prepareRun (clippings : List RawClipping) : PrepareState :=
  clippings.foldl prepareStep ⟨[], [], 0, none⟩

/-- `_prepare_aggregated_text_for_one_book`.  Returns `none` when the final
`return formatted_clippings, last_date` raises `UnboundLocalError`
because `last_date` was never assigned (no record was kept). -/
def prepare_aggregated_text_for_one_book (clippings : List RawClipping) :
    Option (List ClippingData × Str) :=
  let st := prepareRun clippings
  match st.last_date with
  | none => none
  | some d => some (st.formatted, d)

/-- Reference keep-first recursion: keep a raw clipping iff its identity has
not been seen; thread the set of seen identities. -/
def dedupKeepFirst : List RawClipping → List Str → List ClippingData
  | [], _ => []
  | c :: cs, seen =>
    let cid := clipping_id_of c.text c.location c.page
    if cid ∈ seen then dedupKeepFirst cs seen
    else ⟨c.text, c.page, c.location, c.date, c.is_note, cid⟩ :: dedupKeepFirst cs (cid :: seen)

/-- Forget the derived identity again (projection back to the raw tuple). -/
def toRaw (d : ClippingData) : RawClipping := ⟨d.text, d.page, d.location, d.date, d.is_note⟩

/-! ### Properties of the normalizer -/

theorem prepareRun_go (cs : List RawClipping) :
    ∀ (acc : List ClippingData) (seen : List Str) (d : Nat) (ld : Option Str),
      (List.foldl prepareStep ⟨acc, seen, d, ld⟩ cs).formatted = acc ++ dedupKeepFirst cs seen
      ∧ (List.foldl prepareStep ⟨acc, seen, d, ld⟩ cs).duplicates_removed
          + (dedupKeepFirst cs seen).length = d + cs.length := by
  induction cs with
  | nil => intro acc seen d ld; simp [dedupKeepFirst]
  | cons c cs ih =>
    intro acc seen d ld
    by_cases h : clipping_id_of c.text c.location c.page ∈ seen
    · have h1 := ih acc seen (d + 1) ld
      have hstep : prepareStep ⟨acc, seen, d, ld⟩ c = ⟨acc, seen, d + 1, ld⟩ := by
        simp [prepareStep, h]
      have hded : dedupKeepFirst (c :: cs) seen = dedupKeepFirst cs seen := by
        simp [dedupKeepFirst, h]
      rw [List.foldl_cons, hstep, hded]
      exact ⟨h1.1, by have := h1.2; simp only [List.length_cons]; omega⟩
    · have h1 := ih (acc ++ [⟨c.text, c.page, c.location, c.date, c.is_note,
        clipping_id_of c.text c.location c.page⟩]) (clipping_id_of c.text c.location c.page :: seen)
        d (some c.date)
      have hstep : prepareStep ⟨acc, seen, d, ld⟩ c =
          ⟨acc ++ [⟨c.text, c.page, c.location, c.date, c.is_note,
            clipping_id_of c.text c.location c.page⟩],
           clipping_id_of c.text c.location c.page :: seen, d, some c.date⟩ := by
        simp [prepareStep, h]
      have hded : dedupKeepFirst (c :: cs) seen =
          ⟨c.text, c.page, c.location, c.date, c.is_note,
            clipping_id_of c.text c.location c.page⟩ ::
            dedupKeepFirst cs (clipping_id_of c.text c.location c.page :: seen) := by
        simp [dedupKeepFirst, h]
      rw [List.foldl_cons, hstep, hded]
      constructor
      · rw [h1.1, List.append_assoc]
        rfl
      · have := h1.2
        simp only [List.length_cons]
        omega

theorem dedupKeepFirst_ids_fresh (cs : List RawClipping) :
    ∀ seen : List Str,
      (∀ i ∈ (dedupKeepFirst cs seen).map ClippingData.id, i ∉ seen)
      ∧ ((dedupKeepFirst cs seen).map ClippingData.id).Nodup := by
  induction cs with
  | nil => intro seen; simp [dedupKeepFirst]
  | cons c cs ih =>
    intro seen
    by_cases h : clipping_id_of c.text c.location c.page ∈ seen
    · simpa [dedupKeepFirst, h] using ih seen
    · have h1 := ih (clipping_id_of c.text c.location c.page :: seen)
      have hded : dedupKeepFirst (c :: cs) seen =
          ⟨c.text, c.page, c.location, c.date, c.is_note,
            clipping_id_of c.text c.location c.page⟩ ::
            dedupKeepFirst cs (clipping_id_of c.text c.location c.page :: seen) := by
        simp [dedupKeepFirst, h]
      rw [hded]
      simp only [List.map_cons, List.nodup_cons]
      refine ⟨?_, ?_, ?_⟩
      · intro i hi
        rcases List.mem_cons.mp hi with hi | hi
        · simpa [hi] using h
        · intro hmem
          exact (h1.1 i hi) (List.mem_cons_of_mem _ hmem)
      · intro hmem
        exact (h1.1 _ hmem) (List.mem_cons_self _ _)
      · exact h1.2

theorem dedupKeepFirst_sublist (cs : List RawClipping) :
    ∀ seen : List Str, ((dedupKeepFirst cs seen).map toRaw).Sublist cs := by
  induction cs with
  | nil => intro seen; simp [dedupKeepFirst]
  | cons c cs ih =>
    intro seen
    by_cases h : clipping_id_of c.text c.location c.page ∈ seen
    · have hded : dedupKeepFirst (c :: cs) seen = dedupKeepFirst cs seen := by
        simp [dedupKeepFirst, h]
      rw [hded]
      exact List.Sublist.cons c (ih seen)
    · have hded : dedupKeepFirst (c :: cs) seen =
          ⟨c.text, c.page, c.location, c.date, c.is_note,
            clipping_id_of c.text c.location c.page⟩ ::
            dedupKeepFirst cs (clipping_id_of c.text c.location c.page :: seen) := by
        simp [dedupKeepFirst, h]
      rw [hded, List.map_cons]
      have hr : toRaw ⟨c.text, c.page, c.location, c.date, c.is_note,
          clipping_id_of c.text c.location c.page⟩ = c := rfl
      rw [hr]
      exact List.Sublist.cons₂ c (ih _)

theorem dedupKeepFirst_id_formula (cs : List RawClipping) :
    ∀ seen : List Str, ∀ rec ∈ dedupKeepFirst cs seen,
      rec.id = clipping_id_of rec.text rec.location rec.page := by
  induction cs with
  | nil => intro seen rec h; simp [dedupKeepFirst] at h
  | cons c cs ih =>
    intro seen rec h
    by_cases hmem : clipping_id_of c.text c.location c.page ∈ seen
    · exact ih seen rec (by simpa [dedupKeepFirst, hmem] using h)
    · have hded : dedupKeepFirst (c :: cs) seen =
          ⟨c.text, c.page, c.location, c.date, c.is_note,
            clipping_id_of c.text c.location c.page⟩ ::
            dedupKeepFirst cs (clipping_id_of c.text c.location c.page :: seen) := by
        simp [dedupKeepFirst, hmem]
      rw [hded, List.mem_cons] at h
      rcases h with h | h
      · subst h; rfl
      · exact ih _ rec h

/-- C2 counterexample input: two raw clippings whose identities differ under
the spec formula (no final strip of the composed key: trailing space in
page) but coincide under the code's formula. -/
def c2raw1 : RawClipping := ⟨"a".data, "5 ".data, "L".data, "d1".data, false⟩

/-- Second C2 counterexample input (page without the trailing space). -/
def c2raw2 : RawClipping := ⟨"a".data, "5".data, "L".data, "d2".data, false⟩

/-- C2: the claim is false as stated.  Under the spec's identity formula the
two records have distinct identities, so the claim predicts both are kept
and no duplicate is counted; the code strips the composed key, identifies
the two records, drops the second and counts one duplicate. -/
theorem C2_counterexample :
    specClippingIdentity c2raw1.text c2raw1.location c2raw1.page
        ≠ specClippingIdentity c2raw2.text c2raw2.location c2raw2.page
      ∧ (prepareRun [c2raw1, c2raw2]).formatted.length = 1
      ∧ (prepareRun [c2raw1, c2raw2]).duplicates_removed = 1 := by
  decide

/-- C2 (amended): deduplication is keep-first over the identity
`trim( lower(trim(text)[:50]) + "|" + location + "|" + page )` — the first
50 characters of the stripped text are lowercased and the composed key is
stripped of surrounding whitespace.  For every raw list, the produced
records are exactly the keep-first selection in source order, each carries
that identity, no two kept records share an identity, the kept records are
a subsequence of the input, and exactly one duplicate is counted per
dropped record (duplicates + kept = total). -/
theorem C2_keep_first_dedup (cs : List RawClipping) :
    (prepareRun cs).formatted = dedupKeepFirst cs []
    ∧ ((prepareRun cs).formatted.map ClippingData.id).Nodup
    ∧ ((prepareRun cs).formatted.map toRaw).Sublist cs
    ∧ (prepareRun cs).duplicates_removed + (prepareRun cs).formatted.length = cs.length
    ∧ ∀ rec ∈ (prepareRun cs).formatted,
        rec.id = clipping_id_of rec.text rec.location rec.page := by
  have hgo := prepareRun_go cs [] [] 0 none
  have hrun : (prepareRun cs).formatted = dedupKeepFirst cs [] := by
    simpa [prepareRun] using hgo.1
  refine ⟨hrun, ?_, ?_, ?_, ?_⟩
  · rw [hrun]; exact (dedupKeepFirst_ids_fresh cs []).2
  · rw [hrun]; exact dedupKeepFirst_sublist cs []
  · have := hgo.2
    rw [hrun]
    simpa [prepareRun] using hgo.2
  · rw [hrun]; exact dedupKeepFirst_id_formula cs []

/-- Witness for C2 (amended) at a concrete two-element list. -/
theorem C2_keep_first_witness :
    (prepareRun [c2raw1, c2raw2]).formatted = dedupKeepFirst [c2raw1, c2raw2] []
    ∧ (((prepareRun [c2raw1, c2raw2]).formatted.map ClippingData.id).Nodup)
    ∧ (((prepareRun [c2raw1, c2raw2]).formatted.map toRaw).Sublist [c2raw1, c2raw2])
    ∧ (prepareRun [c2raw1, c2raw2]).duplicates_removed
        + (prepareRun [c2raw1, c2raw2]).formatted.length
        = ([c2raw1, c2raw2] : List RawClipping).length
    ∧ ∀ rec ∈ (prepareRun [c2raw1, c2raw2]).formatted,
        rec.id = clipping_id_of rec.text rec.location rec.page :=
  C2_keep_first_dedup [c2raw1, c2raw2]

/-- C4: evaluation at the failing input.  On an empty raw clipping list the
loop body never runs, `last_date` is never assigned, and the final
`return formatted_clippings, last_date` raises `UnboundLocalError`
(modelled as `none`) instead of returning the empty list. -/
theorem C4_empty_input_raises :
    prepare_aggregated_text_for_one_book [] = none := rfl

/-! ## BlockRenderer (`_create_formatted_clipping_block_raw`)

A rendered block carries its flattened rich text (the single text object
produced by `_create_rich_text_array`; an empty rich-text array flattens
back to the empty string, which the reader skips just as it skips an empty
`text_content`). -/

inductive Block where
  | quote (text : Str)
  | callout (text : Str)
  | paragraph (text : Str)
  | divider
deriving DecidableEq, Repr

/-- The `metadata_parts` list built by `_create_formatted_clipping_block_raw`. -/
def metadata_parts (c : ClippingData) (enable_location enable_highlight_date : Bool) :
    List Str :=
  (if enable_location then
      (if c.page.isEmpty then [] else ["📄 Page ".data ++ c.page])
        ++ (if c.location.isEmpty then [] else ["📍 Location ".data ++ c.location])
    else [])
    ++ (if enable_highlight_date && !c.date.isEmpty then ["📅 ".data ++ c.date] else [])

/-- `metadata_text = " • ".join(metadata_parts)` (empty when no parts). -/
def metadata_text (c : ClippingData) (enable_location enable_highlight_date : Bool) : Str :=
  joinSep " • ".data (metadata_parts c enable_location enable_highlight_date)

/-- `_create_formatted_clipping_block_raw`: one callout (notes) or quote
(highlights) block followed by one divider block. -/
def create_formatted_clipping_block_raw (c : ClippingData)
    (enable_location enable_highlight_date : Bool) : List Block :=
  let md := metadata_text c enable_location enable_highlight_date
  if c.is_note then
    [Block.callout ("💡 NOTE\n\n".data ++ c.text
        ++ (if md.isEmpty then [] else "\n\n".data ++ md)),
     Block.divider]
  else
    [Block.quote (c.text ++ (if md.isEmpty then [] else "\n\n".data ++ md)),
     Block.divider]

/-! ## RemoteStateReader (`_retrieve_existing_clippings`) -/

/-- Mutable state of the block-scanning loop of `_retrieve_existing_clippings`:
`current_text`, `current_location`, `current_page`, and the `existing_ids`
set (a list with membership-guarded insertion). -/
structure ReaderState where
  currentText : Str
  currentLocation : Str
  currentPage : Str
  ids : List Str
deriving DecidableEq, Repr

/-- Python `set.add`. -/
def insertId (ids : List Str) (x : Str) : List Str :=
  if x ∈ ids then ids else ids ++ [x]

/-- The metadata marker substrings whose presence drops a line from the
reconstructed main text. -/
def metaMarkers : List Str :=
  ["📄".data, "📍".data, "📅".data, "Page:".data, "Location:".data,
   "Date Added:".data, "_".data]

/-- `s.split(pat)[1].split(stop)[0].strip()` with the surrounding
`try/except: pass` (`none` = the `IndexError` case). -/
def extractAfter (s pat stop : Str) : Option Str :=
  match splitOnL pat s with
  | _ :: second :: _ => some (strTrim ((splitOnL stop second).headD []))
  | _ => none

/-- The `current_location` update performed on a content block. -/
def updLocation (tc cur : Str) : Str :=
  if containsL "📍 Location".data tc then
    match extractAfter tc "📍 Location".data "•".data with
    | some v => v
    | none => cur
  else if containsL "Location:".data tc then
    match extractAfter tc "Location:".data ",".data with
    | some v => v
    | none => cur
  else cur

/-- The `current_page` update performed on a content block. -/
def updPage (tc cur : Str) : Str :=
  if containsL "📄 Page".data tc then
    match extractAfter tc "📄 Page".data "•".data with
    | some v => v
    | none => cur
  else if containsL "Page:".data tc then
    match extractAfter tc "Page:".data ",".data with
    | some v => v
    | none => cur
  else cur

/-- The main-text cleanup on a content block: strip the note marker, drop
metadata lines, re-join and strip. -/
def cleanMainText (tc : Str) : Str :=
  let main0 := if containsL "💡 NOTE".data tc
    then (splitOnL "💡 NOTE\n\n".data tc).getLastD [] else tc
  let clean := (splitOnL "\n".data main0).filter
    (fun line => !(metaMarkers.any (fun m => containsL m line)))
  strTrim (joinSep "\n".data clean)

/-- Processing of one non-divider block by `_retrieve_existing_clippings`. -/
def processContent (st : ReaderState) (tc : Str) : ReaderState :=
  if tc.isEmpty then st
  else
    let loc := updLocation tc st.currentLocation
    let pg := updPage tc st.currentPage
    let main := cleanMainText tc
    if main.isEmpty then ⟨st.currentText, loc, pg, st.ids⟩
    else
      let cid := strTrim (List.take 50 main ++ "|".data ++ loc ++ "|".data ++ pg)
      ⟨main, loc, pg, if cid.isEmpty then st.ids else insertId st.ids cid⟩

/-- Processing of a divider block (close out the accumulated clipping). -/
def flushClipping (st : ReaderState) : ReaderState :=
  if st.currentText.isEmpty then st
  else
    let main := strTrim (replaceAll "💡 NOTE\n\n".data []
      ((splitOnL "\n".data st.currentText).headD []))
    let cid := strTrim (List.take 50 main ++ "|".data ++ st.currentLocation
      ++ "|".data ++ st.currentPage)
    ⟨[], [], [], if cid.isEmpty then st.ids else insertId st.ids cid⟩

/-- Dispatch of one block. -/
def readBlock (st : ReaderState) : Block → ReaderState
  | Block.divider => flushClipping st
  | Block.quote tc => processContent st tc
  | Block.callout tc => processContent st tc
  | Block.paragraph tc => processContent st tc

/-- `_retrieve_existing_clippings` over the fully drained block list
(including the final flush of a pending clipping with no trailing
divider). -/
def retrieve_existing_clippings (blocks : List Block) : List Str :=
  (flushClipping (blocks.foldl readBlock ⟨[], [], [], []⟩)).ids

/-! ### Lemmas about the string primitives -/

theorem startsWithL_self_append (pat rest : Str) : startsWithL pat (pat ++ rest) = true := by
  induction pat with
  | nil => rfl
  | cons p ps ih => simp [startsWithL, ih]

theorem startsWithL_parts : ∀ {pat s : Str}, startsWithL pat s = true →
    s = pat ++ s.drop pat.length := by
  intro pat
  induction pat with
  | nil => intro s _; simp
  | cons p ps ih =>
    intro s h
    cases s with
    | nil => simp [startsWithL] at h
    | cons c cs =>
      simp only [startsWithL, Bool.and_eq_true, beq_iff_eq] at h
      obtain ⟨rfl, h2⟩ := h
      simpa using ih h2

theorem breakOn_self_append (ph : Char) (pt rest : Str) :
    breakOn (ph :: pt) ((ph :: pt) ++ rest) = some ([], rest) := by
  have h1 : startsWithL (ph :: pt) (ph :: (pt ++ rest)) = true := startsWithL_self_append _ _
  show breakOn (ph :: pt) (ph :: (pt ++ rest)) = some ([], rest)
  simp [breakOn, h1, List.drop_left]

theorem breakOn_none_of_not_mem {ph : Char} (pt : Str) :
    ∀ {s : Str}, ph ∉ s → breakOn (ph :: pt) s = none := by
  intro s
  induction s with
  | nil => intro _; rfl
  | cons c cs ih =>
    intro h
    have hne : (ph == c) = false := by
      simp only [beq_eq_false_iff_ne]
      intro he
      exact h (by simp [he])
    have hsw : startsWithL (ph :: pt) (c :: cs) = false := by
      simp [startsWithL, hne]
    have hrest : breakOn (ph :: pt) cs = none :=
      ih (fun hm => h (List.mem_cons_of_mem _ hm))
    simp [breakOn, hsw, hrest]

theorem breakOn_append_of_not_mem {ph : Char} (pt : Str) {a : Str} (h : ph ∉ a) (s : Str) :
    breakOn (ph :: pt) (a ++ s) =
      match breakOn (ph :: pt) s with
      | none => none
      | some (pre, post) => some (a ++ pre, post) := by
  induction a with
  | nil =>
    simp only [List.nil_append]
    cases hb : breakOn (ph :: pt) s with
    | none => rfl
    | some pp => cases pp; rfl
  | cons c a' ih =>
    have hne : (ph == c) = false := by
      simp only [beq_eq_false_iff_ne]
      intro he
      exact h (by simp [he])
    have hsw : startsWithL (ph :: pt) (c :: (a' ++ s)) = false := by
      simp [startsWithL, hne]
    have ih2 := ih (fun hm => h (List.mem_cons_of_mem _ hm))
    show breakOn (ph :: pt) (c :: (a' ++ s)) = _
    rw [breakOn, if_neg (by simp [hsw]), ih2]
    cases hb : breakOn (ph :: pt) s with
    | none => rfl
    | some pp => cases pp; rfl

theorem breakOn_parts {pat : Str} : ∀ {s pre post : Str},
    breakOn pat s = some (pre, post) → s = pre ++ pat ++ post := by
  intro s
  induction s with
  | nil =>
    intro pre post h
    cases hp : pat with
    | nil =>
      rw [hp] at h
      simp [breakOn] at h
      simp [h.1, h.2]
    | cons c cs => rw [hp] at h; simp [breakOn] at h
  | cons c cs ih =>
    intro pre post h
    by_cases hsw : startsWithL pat (c :: cs) = true
    · rw [breakOn, if_pos hsw] at h
      obtain ⟨h1, h2⟩ := Prod.mk.injEq .. ▸ Option.some.inj h
      subst h1
      rw [List.nil_append, ← h2]
      exact startsWithL_parts hsw
    · rw [breakOn, if_neg hsw] at h
      cases hb : breakOn pat cs with
      | none => rw [hb] at h; simp at h
      | some pp =>
        obtain ⟨pre', post'⟩ := pp
        rw [hb] at h
        simp only at h
        obtain ⟨h1, h2⟩ := Prod.mk.injEq .. ▸ Option.some.inj h
        subst h1; subst h2
        have := ih hb
        simp [this]

theorem breakOn_some_length {ph : Char} {pt s pre post : Str}
    (h : breakOn (ph :: pt) s = some (pre, post)) : post.length < s.length := by
  have hparts := breakOn_parts h
  rw [hparts]
  simp [List.length_append]
  omega

theorem containsL_false_breakOn {pat s : Str} (h : containsL pat s = false) :
    breakOn pat s = none := by
  unfold containsL at h
  cases hb : breakOn pat s with
  | none => rfl
  | some pp => rw [hb] at h; simp at h

theorem containsL_of_missing_char {c : Char} {pat : Str} (hc : c ∈ pat) {s : Str}
    (hn : c ∉ s) : containsL pat s = false := by
  unfold containsL
  cases hb : breakOn pat s with
  | none => rfl
  | some pp =>
    obtain ⟨pre, post⟩ := pp
    have := breakOn_parts hb
    exact absurd (this ▸ (by simp [hc] : c ∈ pre ++ pat ++ post)) hn

theorem containsL_of_startsWith {pat s : Str} (h : startsWithL pat s = true) :
    containsL pat s = true := by
  cases s with
  | nil =>
    cases pat with
    | nil => rfl
    | cons p ps => simp [startsWithL] at h
  | cons c cs =>
    unfold containsL
    rw [breakOn, if_pos h]
    rfl

theorem splitOnFuel_congr (ph : Char) (pt : Str) :
    ∀ (f f' : Nat) (s : Str), s.length ≤ f → s.length ≤ f' →
      splitOnFuel (ph :: pt) f s = splitOnFuel (ph :: pt) f' s := by
  intro f
  induction f with
  | zero =>
    intro f' s h h'
    have hs : s = [] := List.eq_nil_of_length_eq_zero (Nat.le_zero.mp h)
    subst hs
    cases f' with
    | zero => rfl
    | succ m => simp [splitOnFuel, breakOn]
  | succ n ih =>
    intro f' s h h'
    cases f' with
    | zero =>
      have hs : s = [] := List.eq_nil_of_length_eq_zero (Nat.le_zero.mp h')
      subst hs
      simp [splitOnFuel, breakOn]
    | succ m =>
      simp only [splitOnFuel]
      cases hb : breakOn (ph :: pt) s with
      | none => rfl
      | some pp =>
        obtain ⟨pre, post⟩ := pp
        have hlen := breakOn_some_length hb
        have h1 : post.length ≤ n := by omega
        have h2 : post.length ≤ m := by omega
        simp only
        rw [ih m post h1 h2]

theorem splitOnL_cons_eq {ph : Char} {pt s pre post : Str}
    (h : breakOn (ph :: pt) s = some (pre, post)) :
    splitOnL (ph :: pt) s = pre :: splitOnL (ph :: pt) post := by
  unfold splitOnL
  cases hs : s.length with
  | zero =>
    have : s = [] := List.eq_nil_of_length_eq_zero hs
    subst this
    simp [breakOn] at h
  | succ n =>
    have hlen := breakOn_some_length h
    simp only [splitOnFuel, h]
    congr 1
    exact splitOnFuel_congr ph pt n post.length post (by omega) (le_refl _)

theorem splitOnL_single {pat s : Str} (h : breakOn pat s = none) :
    splitOnL pat s = [s] := by
  unfold splitOnL
  cases hs : s.length with
  | zero => rfl
  | succ n => simp [splitOnFuel, h]

theorem splitOnL_step (ph : Char) (pt : Str) {a : Str} (h : ph ∉ a) (rest : Str) :
    splitOnL (ph :: pt) (a ++ (ph :: pt) ++ rest) = a :: splitOnL (ph :: pt) rest := by
  have hb : breakOn (ph :: pt) (a ++ ((ph :: pt) ++ rest)) = some (a, rest) := by
    rw [breakOn_append_of_not_mem pt h, breakOn_self_append]
    simp
  rw [List.append_assoc]
  exact splitOnL_cons_eq hb

theorem splitOnL_of_not_contains {pat s : Str} (h : containsL pat s = false) :
    splitOnL pat s = [s] := splitOnL_single (containsL_false_breakOn h)

theorem replaceAll_of_not_contains {pat s : Str} (repl : Str)
    (h : containsL pat s = false) : replaceAll pat repl s = s := by
  unfold replaceAll
  rw [splitOnL_of_not_contains h]
  rfl

theorem dropWhile_all_false {p : Char → Bool} :
    ∀ {s : Str}, (∀ c ∈ s, p c = false) → s.dropWhile p = s := by
  intro s
  induction s with
  | nil => intro _; rfl
  | cons c cs _ =>
    intro h
    have := h c (by simp)
    simp [List.dropWhile_cons, this]

theorem dropWhile_append_of_ne_nil {p : Char → Bool} :
    ∀ {s : Str}, s.dropWhile p ≠ [] → ∀ t, (s ++ t).dropWhile p = s.dropWhile p ++ t := by
  intro s
  induction s with
  | nil => intro h; simp at h
  | cons c cs ih =>
    intro h t
    cases hp : p c with
    | true =>
      rw [List.dropWhile_cons, if_pos (by simp [hp])] at h
      simp only [List.cons_append, List.dropWhile_cons, hp, if_pos]
      exact ih h t
    | false =>
      simp [List.dropWhile_cons, hp]

theorem dropWhile_append_of_nil {p : Char → Bool} :
    ∀ {s : Str}, s.dropWhile p = [] → ∀ t, (s ++ t).dropWhile p = t.dropWhile p := by
  intro s
  induction s with
  | nil => intro _ t; rfl
  | cons c cs ih =>
    intro h t
    cases hp : p c with
    | true =>
      rw [List.dropWhile_cons, if_pos (by simp [hp])] at h
      simp only [List.cons_append, List.dropWhile_cons, hp, if_pos]
      exact ih h t
    | false =>
      rw [List.dropWhile_cons, if_neg (by simp [hp])] at h
      simp at h

theorem strTrim_of_clean {s : Str} (h : ∀ c ∈ s, Char.isWhitespace c = false) :
    strTrim s = s := by
  unfold strTrim
  rw [dropWhile_all_false h,
    dropWhile_all_false (fun c hc => h c (List.mem_reverse.mp hc)), List.reverse_reverse]

theorem strTrim_snoc_ws {c : Char} (hc : Char.isWhitespace c = true) (s : Str) :
    strTrim (s ++ [c]) = strTrim s := by
  unfold strTrim
  cases hd : s.dropWhile Char.isWhitespace with
  | nil =>
    rw [dropWhile_append_of_nil hd [c]]
    simp [List.dropWhile_cons, hc]
  | cons d ds =>
    rw [dropWhile_append_of_ne_nil (by rw [hd]; exact List.cons_ne_nil _ _) [c], hd]
    simp only [List.reverse_append, List.reverse_cons, List.reverse_nil, List.nil_append,
      List.singleton_append, List.dropWhile_cons, hc, if_pos]

theorem mem_dropWhile_of_not {p : Char → Bool} {x : Char} (hx : p x = false) :
    ∀ {s : Str}, x ∈ s → x ∈ s.dropWhile p := by
  intro s
  induction s with
  | nil => intro h; simp at h
  | cons c cs ih =>
    intro h
    cases hp : p c with
    | true =>
      rcases List.mem_cons.mp h with h | h
      · subst h; rw [hp] at hx; simp at hx
      · simpa [List.dropWhile_cons, hp] using ih h
    | false => simpa [List.dropWhile_cons, hp] using h

theorem strTrim_ne_nil {s : Str} {x : Char} (hx : x ∈ s)
    (hxw : Char.isWhitespace x = false) : strTrim s ≠ [] := by
  unfold strTrim
  intro h
  have h1 : x ∈ s.dropWhile Char.isWhitespace := mem_dropWhile_of_not hxw hx
  have h2 : x ∈ (s.dropWhile Char.isWhitespace).reverse := List.mem_reverse.mpr h1
  have h3 : x ∈ ((s.dropWhile Char.isWhitespace).reverse).dropWhile Char.isWhitespace :=
    mem_dropWhile_of_not hxw h2
  rw [List.reverse_eq_nil_iff.mp h] at h3
  simp at h3

theorem strTrim_space_wrap {l : Str} (hl : l ≠ [])
    (hc : ∀ c ∈ l, Char.isWhitespace c = false) :
    strTrim (' ' :: (l ++ [' '])) = l := by
  have h0 : Char.isWhitespace ' ' = true := by decide
  have hdl : l.dropWhile Char.isWhitespace = l := dropWhile_all_false hc
  unfold strTrim
  rw [List.dropWhile_cons, if_pos (by simp [h0]),
    dropWhile_append_of_ne_nil (by rw [hdl]; exact hl) [' '], hdl, List.reverse_append]
  simp only [List.reverse_cons, List.reverse_nil, List.nil_append, List.singleton_append,
    List.dropWhile_cons, h0, if_pos]
  rw [dropWhile_all_false (fun c hc2 => hc c (List.mem_reverse.mp hc2)), List.reverse_reverse]

theorem not_mem_append_chars {x : Char} {a b : Str} (ha : x ∉ a) (hb : x ∉ b) :
    x ∉ a ++ b := by
  intro h
  rcases List.mem_append.mp h with h | h
  · exact ha h
  · exact hb h

theorem isEmpty_false_of_ne {s : Str} (h : s ≠ []) : s.isEmpty = false := by
  cases s with
  | nil => exact absurd rfl h
  | cons c cs => rfl

theorem append_ne_nil_left {a b : Str} (h : a ≠ []) : a ++ b ≠ [] := by
  cases a with
  | nil => exact absurd rfl h
  | cons c cs => simp

theorem ws_false_of_alnum {x : Char} (hx : x.isAlphanum = true) :
    x.isWhitespace = false := by
  by_contra h
  have h1 : x.isWhitespace = true := by
    revert h; cases x.isWhitespace <;> simp
  simp only [Char.isWhitespace, Bool.or_eq_true, decide_eq_true_eq] at h1
  rcases h1 with ((h1 | h1) | h1) | h1 <;> subst h1 <;> exact absurd hx (by decide)

/-! ### Evaluation of the reader on a freshly rendered clipping -/

theorem metadata_text_eval {t p l d : Str} (b : Bool) (i : Str)
    (hpn : p ≠ []) (hln : l ≠ []) (hdn : d ≠ []) :
    metadata_text ⟨t, p, l, d, b, i⟩ true true
      = "📄 Page ".data ++ p ++ " • ".data
          ++ ("📍 Location ".data ++ l ++ " • ".data ++ ("📅 ".data ++ d)) := by
  unfold metadata_text metadata_parts
  simp only [isEmpty_false_of_ne hpn, isEmpty_false_of_ne hln, isEmpty_false_of_ne hdn]
  simp [joinSep, List.append_assoc]

theorem extractAfter_eval {ph : Char} {pt A mid C : Str} (stopc : Char)
    (hA : ph ∉ A)
    (hafter : containsL (ph :: pt) (mid ++ stopc :: C) = false)
    (hstop : stopc ∉ mid) :
    extractAfter (A ++ (ph :: pt) ++ (mid ++ stopc :: C)) (ph :: pt) [stopc]
      = some (strTrim mid) := by
  have hb : breakOn (ph :: pt) (A ++ ((ph :: pt) ++ (mid ++ stopc :: C)))
      = some (A, mid ++ stopc :: C) := by
    rw [breakOn_append_of_not_mem pt hA, breakOn_self_append]
    simp
  unfold extractAfter
  rw [List.append_assoc, splitOnL_cons_eq hb, splitOnL_of_not_contains hafter]
  have h2 : splitOnL [stopc] (mid ++ [stopc] ++ C) = mid :: splitOnL [stopc] C :=
    splitOnL_step stopc [] hstop C
  have h3 : mid ++ stopc :: C = mid ++ [stopc] ++ C := by simp
  simp only [h3, h2]
  rfl

theorem updLocation_eval {tc A mid C cur : Str}
    (htc : tc = A ++ ('📍' :: " Location".data) ++ (mid ++ '•' :: C))
    (hA : '📍' ∉ A)
    (hafter : containsL ('📍' :: " Location".data) (mid ++ '•' :: C) = false)
    (hstop : '•' ∉ mid) :
    updLocation tc cur = strTrim mid := by
  have hx : extractAfter tc "📍 Location".data "•".data = some (strTrim mid) := by
    show extractAfter tc ('📍' :: " Location".data) ['•'] = some (strTrim mid)
    rw [htc]
    exact extractAfter_eval '•' hA hafter hstop
  have hcont : containsL "📍 Location".data tc = true := by
    show containsL ('📍' :: " Location".data) tc = true
    rw [htc, List.append_assoc]
    unfold containsL
    rw [breakOn_append_of_not_mem _ hA, breakOn_self_append]
    simp
  unfold updLocation
  rw [if_pos hcont, hx]

theorem updPage_eval {tc A mid C cur : Str}
    (htc : tc = A ++ ('📄' :: " Page".data) ++ (mid ++ '•' :: C))
    (hA : '📄' ∉ A)
    (hafter : containsL ('📄' :: " Page".data) (mid ++ '•' :: C) = false)
    (hstop : '•' ∉ mid) :
    updPage tc cur = strTrim mid := by
  have hx : extractAfter tc "📄 Page".data "•".data = some (strTrim mid) := by
    show extractAfter tc ('📄' :: " Page".data) ['•'] = some (strTrim mid)
    rw [htc]
    exact extractAfter_eval '•' hA hafter hstop
  have hcont : containsL "📄 Page".data tc = true := by
    show containsL ('📄' :: " Page".data) tc = true
    rw [htc, List.append_assoc]
    unfold containsL
    rw [breakOn_append_of_not_mem _ hA, breakOn_self_append]
    simp
  unfold updPage
  rw [if_pos hcont, hx]

theorem lines_filter_eval {t meta : Str}
    (hnl_t : '\n' ∉ t) (hnl_m : '\n' ∉ meta)
    (hmark_t : (metaMarkers.any fun m => containsL m t) = false)
    (hmark_m : containsL "📄".data meta = true)
    (htr : strTrim t = t) :
    strTrim (joinSep "\n".data ((splitOnL "\n".data (t ++ '\n' :: '\n' :: meta)).filter
      (fun line => !(metaMarkers.any (fun m => containsL m line))))) = t := by
  have hsplit : splitOnL "\n".data (t ++ '\n' :: '\n' :: meta) = [t, [], meta] := by
    have h1 : t ++ '\n' :: '\n' :: meta = t ++ ('\n' :: []) ++ (([] : Str) ++ ('\n' :: []) ++ meta) := by
      simp
    rw [h1]
    show splitOnL ('\n' :: []) _ = _
    rw [splitOnL_step '\n' [] hnl_t, splitOnL_step '\n' [] (by simp),
      splitOnL_of_not_contains (containsL_of_missing_char (by simp) hnl_m)]
  rw [hsplit]
  have hfm : (metaMarkers.any fun m => containsL m meta) = true := by
    simp only [metaMarkers, List.any_cons]
    rw [hmark_m]
    rfl
  have hfe : (metaMarkers.any fun m => containsL m ([] : Str)) = false := by decide
  simp only [List.filter_cons, List.filter_nil, hmark_t, hfe, hfm, Bool.not_true,
    Bool.not_false, if_pos, if_neg, Bool.false_eq_true, not_false_eq_true]
  have hjoin : joinSep "\n".data [t, ([] : Str)] = t ++ ['\n'] := by
    simp [joinSep]
  rw [hjoin, strTrim_snoc_ws (by decide), htr]

theorem cleanMainText_quote_eval {t meta : Str}
    (hnote : containsL "💡 NOTE".data (t ++ '\n' :: '\n' :: meta) = false)
    (hnl_t : '\n' ∉ t) (hnl_m : '\n' ∉ meta)
    (hmark_t : (metaMarkers.any fun m => containsL m t) = false)
    (hmark_m : containsL "📄".data meta = true)
    (htr : strTrim t = t) :
    cleanMainText (t ++ '\n' :: '\n' :: meta) = t := by
  unfold cleanMainText
  rw [if_neg (by simp [hnote])]
  exact lines_filter_eval hnl_t hnl_m hmark_t hmark_m htr

theorem cleanMainText_note_eval {tc t meta : Str}
    (htc : tc = "💡 NOTE\n\n".data ++ (t ++ '\n' :: '\n' :: meta))
    (hnote : containsL "💡 NOTE\n\n".data (t ++ '\n' :: '\n' :: meta) = false)
    (hnl_t : '\n' ∉ t) (hnl_m : '\n' ∉ meta)
    (hmark_t : (metaMarkers.any fun m => containsL m t) = false)
    (hmark_m : containsL "📄".data meta = true)
    (htr : strTrim t = t) :
    cleanMainText tc = t := by
  have hcont : containsL "💡 NOTE".data tc = true := by
    rw [htc]
    apply containsL_of_startsWith
    rw [show ("💡 NOTE\n\n".data : Str) = "💡 NOTE".data ++ "\n\n".data from rfl,
      List.append_assoc]
    exact startsWithL_self_append _ _
  have hsplit : splitOnL "💡 NOTE\n\n".data tc = [[], t ++ '\n' :: '\n' :: meta] := by
    rw [htc]
    show splitOnL ('💡' :: " NOTE\n\n".data) _ = _
    have h1 : ("💡 NOTE\n\n".data : Str) ++ (t ++ '\n' :: '\n' :: meta)
        = ([] : Str) ++ ('💡' :: " NOTE\n\n".data) ++ (t ++ '\n' :: '\n' :: meta) := rfl
    rw [h1, splitOnL_step '💡' _ (by simp), splitOnL_of_not_contains hnote]
  unfold cleanMainText
  rw [if_pos hcont, hsplit]
  have hlast : ([[], t ++ '\n' :: '\n' :: meta] : List Str).getLastD []
      = t ++ '\n' :: '\n' :: meta := rfl
  rw [hlast]
  exact lines_filter_eval hnl_t hnl_m hmark_t hmark_m htr

theorem not_mem_cons_of {x c : Char} {s : Str} (h1 : x ≠ c) (h2 : x ∉ s) :
    x ∉ c :: s := by
  intro hm
  rcases List.mem_cons.mp hm with h | h
  · exact h1 h
  · exact h2 h

theorem processContent_eval {tc t l p CID : Str}
    (hne : tc.isEmpty = false)
    (hloc : updLocation tc [] = l)
    (hpg : updPage tc [] = p)
    (hmain : cleanMainText tc = t)
    (htn : t ≠ [])
    (hcid : CID = strTrim (List.take 50 t ++ "|".data ++ l ++ "|".data ++ p))
    (hcidne : CID ≠ []) :
    processContent ⟨[], [], [], []⟩ tc = ⟨t, l, p, [CID]⟩ := by
  unfold processContent
  rw [if_neg (by simp [hne])]
  simp only [hloc, hpg, hmain, ← hcid]
  rw [if_neg (by simp [isEmpty_false_of_ne htn]),
    if_neg (by simp [isEmpty_false_of_ne hcidne])]
  simp [insertId]

theorem flushClipping_keep {t l p CID : Str}
    (htn : t ≠ []) (htr : strTrim t = t)
    (hnl : '\n' ∉ t) (hnote : containsL "💡 NOTE\n\n".data t = false)
    (hcid : CID = strTrim (List.take 50 t ++ "|".data ++ l ++ "|".data ++ p))
    (hcidne : CID ≠ []) :
    flushClipping ⟨t, l, p, [CID]⟩ = ⟨[], [], [], [CID]⟩ := by
  have hmain2 : strTrim (replaceAll "💡 NOTE\n\n".data [] ((splitOnL "\n".data t).headD []))
      = t := by
    rw [splitOnL_of_not_contains (containsL_of_missing_char (by decide) hnl),
      show ([t] : List Str).headD [] = t from rfl,
      replaceAll_of_not_contains _ hnote, htr]
  unfold flushClipping
  rw [if_neg (by simp [isEmpty_false_of_ne htn])]
  simp only [hmain2, ← hcid]
  rw [if_neg (by simp [isEmpty_false_of_ne hcidne])]
  simp [insertId]

theorem flushClipping_empty (a b : Str) (ids : List Str) :
    flushClipping ⟨[], a, b, ids⟩ = ⟨[], a, b, ids⟩ := by
  simp [flushClipping]

/-- C3 counterexample input: a plain highlight whose text contains an upper
case letter. -/
def c3record : ClippingData :=
  ⟨"Hello".data, "1".data, "2".data, "monday".data, false,
    clipping_id_of "Hello".data "2".data "1".data⟩

/-- C3: the claim is false as stated.  The normalizer lowercases the first
50 characters of the text when forming the identity, but the remote-state
reader never lowercases the text it recovers, so re-parsing the rendered
block of a record with upper case text yields a different identity. -/
theorem C3_counterexample :
    c3record.id = "hello|2|1".data
    ∧ retrieve_existing_clippings
        (create_formatted_clipping_block_raw c3record true true) = ["Hello|2|1".data]
    ∧ c3record.id ∉ retrieve_existing_clippings
        (create_formatted_clipping_block_raw c3record true true) := by
  decide

/-- C3 (amended): the reader recovers the identity computed WITHOUT
lowercasing, so the round trip restores the normalizer's identity exactly
when the trimmed text is unchanged by lowercasing in its first 50
characters.  Stated for clean fields: the text consists of alphanumerics
and spaces with no surrounding whitespace, and page / location / date are
non-empty alphanumeric strings; then rendering (with location and date
display enabled) followed by re-parsing yields exactly the record's
identity, for highlights and notes alike. -/
theorem C3_round_trip_amended (t p l d : Str) (b : Bool)
    (ht : ∀ c ∈ t, c.isAlphanum = true ∨ c = ' ')
    (htn : t ≠ []) (htr : strTrim t = t)
    (hlow : strLower (List.take 50 t) = List.take 50 t)
    (hpn : p ≠ []) (hpc : ∀ c ∈ p, c.isAlphanum = true)
    (hln : l ≠ []) (hlc : ∀ c ∈ l, c.isAlphanum = true)
    (hdn : d ≠ []) (hdc : ∀ c ∈ d, c.isAlphanum = true) :
    retrieve_existing_clippings
        (create_formatted_clipping_block_raw
          ⟨t, p, l, d, b, clipping_id_of t l p⟩ true true)
      = [clipping_id_of t l p] := by
  -- character-class facts
  have hTmem : ∀ x : Char, x.isAlphanum = false → x ≠ ' ' → x ∉ t := by
    intro x h1 h2 hm
    rcases ht x hm with h | h
    · rw [h] at h1; exact absurd h1 (by simp)
    · exact h2 h
  have hPmem : ∀ x : Char, x.isAlphanum = false → x ∉ p := by
    intro x h1 hm
    have := hpc x hm
    rw [this] at h1; exact absurd h1 (by simp)
  have hLmem : ∀ x : Char, x.isAlphanum = false → x ∉ l := by
    intro x h1 hm
    have := hlc x hm
    rw [this] at h1; exact absurd h1 (by simp)
  have hDmem : ∀ x : Char, x.isAlphanum = false → x ∉ d := by
    intro x h1 hm
    have := hdc x hm
    rw [this] at h1; exact absurd h1 (by simp)
  have hLws : ∀ c ∈ l, c.isWhitespace = false := fun c hc => ws_false_of_alnum (hlc c hc)
  have hPws : ∀ c ∈ p, c.isWhitespace = false := fun c hc => ws_false_of_alnum (hpc c hc)
  -- the metadata line
  have hmd : metadata_text ⟨t, p, l, d, b, clipping_id_of t l p⟩ true true
      = "📄 Page ".data ++ p ++ " • ".data
          ++ ("📍 Location ".data ++ l ++ " • ".data ++ ("📅 ".data ++ d)) :=
    metadata_text_eval b _ hpn hln hdn
  -- abbreviation facts about the full rendered quote text
  -- location extraction
  have hA_loc : '📍' ∉ t ++ '\n' :: '\n' :: ("📄 Page ".data ++ p ++ (' ' :: '•' :: ' ' :: ([] : Str))) :=
    not_mem_append_chars (hTmem '📍' (by decide) (by decide))
      (not_mem_cons_of (by decide) (not_mem_cons_of (by decide)
        (not_mem_append_chars
          (not_mem_append_chars (by decide) (hPmem '📍' (by decide)))
          (by decide))))
  have hafter_loc : containsL ('📍' :: " Location".data)
      ((' ' :: (l ++ [' '])) ++ '•' :: (' ' :: ("📅 ".data ++ d))) = false :=
    containsL_of_missing_char (by decide)
      (not_mem_append_chars
        (not_mem_cons_of (by decide)
          (not_mem_append_chars (hLmem '📍' (by decide)) (by decide)))
        (not_mem_cons_of (by decide)
          (not_mem_cons_of (by decide)
            (not_mem_append_chars (by decide) (hDmem '📍' (by decide))))))
  have hstop_loc : '•' ∉ ' ' :: (l ++ [' ']) :=
    not_mem_cons_of (by decide)
      (not_mem_append_chars (hLmem '•' (by decide)) (by decide))
  have hshape_loc : t ++ '\n' :: '\n' :: ("📄 Page ".data ++ p ++ " • ".data
        ++ ("📍 Location ".data ++ l ++ " • ".data ++ ("📅 ".data ++ d)))
      = (t ++ '\n' :: '\n' :: ("📄 Page ".data ++ p ++ (' ' :: '•' :: ' ' :: ([] : Str))))
        ++ ('📍' :: " Location".data)
        ++ ((' ' :: (l ++ [' '])) ++ '•' :: (' ' :: ("📅 ".data ++ d))) := by
    simp only [List.append_assoc, List.cons_append, List.nil_append, List.singleton_append]
  have hloc : updLocation (t ++ '\n' :: '\n' :: ("📄 Page ".data ++ p ++ " • ".data
      ++ ("📍 Location ".data ++ l ++ " • ".data ++ ("📅 ".data ++ d)))) [] = l :=
    (updLocation_eval hshape_loc hA_loc hafter_loc hstop_loc).trans
      (strTrim_space_wrap hln hLws)
  -- page extraction
  have hA_pg : '📄' ∉ t ++ ('\n' :: '\n' :: ([] : Str)) :=
    not_mem_append_chars (hTmem '📄' (by decide) (by decide)) (by decide)
  have hafter_pg : containsL ('📄' :: " Page".data)
      ((' ' :: (p ++ [' '])) ++ '•' :: (' ' :: ("📍 Location ".data ++ l ++ " • ".data
        ++ ("📅 ".data ++ d)))) = false :=
    containsL_of_missing_char (by decide)
      (not_mem_append_chars
        (not_mem_cons_of (by decide)
          (not_mem_append_chars (hPmem '📄' (by decide)) (by decide)))
        (not_mem_cons_of (by decide)
          (not_mem_cons_of (by decide)
            (not_mem_append_chars
              (not_mem_append_chars
                (not_mem_append_chars (by decide) (hLmem '📄' (by decide)))
                (by decide))
              (not_mem_append_chars (by decide) (hDmem '📄' (by decide)))))))
  have hstop_pg : '•' ∉ ' ' :: (p ++ [' ']) :=
    not_mem_cons_of (by decide)
      (not_mem_append_chars (hPmem '•' (by decide)) (by decide))
  have hshape_pg : t ++ '\n' :: '\n' :: ("📄 Page ".data ++ p ++ " • ".data
        ++ ("📍 Location ".data ++ l ++ " • ".data ++ ("📅 ".data ++ d)))
      = (t ++ ('\n' :: '\n' :: ([] : Str)))
        ++ ('📄' :: " Page".data)
        ++ ((' ' :: (p ++ [' '])) ++ '•' :: (' ' :: ("📍 Location ".data ++ l ++ " • ".data
          ++ ("📅 ".data ++ d)))) := by
    simp only [List.append_assoc, List.cons_append, List.nil_append, List.singleton_append]
  have hpg : updPage (t ++ '\n' :: '\n' :: ("📄 Page ".data ++ p ++ " • ".data
      ++ ("📍 Location ".data ++ l ++ " • ".data ++ ("📅 ".data ++ d)))) [] = p :=
    (updPage_eval hshape_pg hA_pg hafter_pg hstop_pg).trans
      (strTrim_space_wrap hpn hPws)
  -- main-text cleanup facts
  have hnl_t : '\n' ∉ t := hTmem '\n' (by decide) (by decide)
  have hnl_m : '\n' ∉ "📄 Page ".data ++ p ++ " • ".data
      ++ ("📍 Location ".data ++ l ++ " • ".data ++ ("📅 ".data ++ d)) :=
    not_mem_append_chars
      (not_mem_append_chars
        (not_mem_append_chars (by decide) (hPmem '\n' (by decide)))
        (by decide))
      (not_mem_append_chars
        (not_mem_append_chars
          (not_mem_append_chars (by decide) (hLmem '\n' (by decide)))
          (by decide))
        (not_mem_append_chars (by decide) (hDmem '\n' (by decide))))
  have hm1 : containsL "📄".data t = false :=
    containsL_of_missing_char (by decide) (hTmem '📄' (by decide) (by decide))
  have hm2 : containsL "📍".data t = false :=
    containsL_of_missing_char (by decide) (hTmem '📍' (by decide) (by decide))
  have hm3 : containsL "📅".data t = false :=
    containsL_of_missing_char (by decide) (hTmem '📅' (by decide) (by decide))
  have hm4 : containsL "Page:".data t = false :=
    containsL_of_missing_char (c := ':') (by decide) (hTmem ':' (by decide) (by decide))
  have hm5 : containsL "Location:".data t = false :=
    containsL_of_missing_char (c := ':') (by decide) (hTmem ':' (by decide) (by decide))
  have hm6 : containsL "Date Added:".data t = false :=
    containsL_of_missing_char (c := ':') (by decide) (hTmem ':' (by decide) (by decide))
  have hm7 : containsL "_".data t = false :=
    containsL_of_missing_char (by decide) (hTmem '_' (by decide) (by decide))
  have hmark_t : (metaMarkers.any fun m => containsL m t) = false := by
    simp [metaMarkers, hm1, hm2, hm3, hm4, hm5, hm6, hm7]
  have hmark_m : containsL "📄".data ("📄 Page ".data ++ p ++ " • ".data
      ++ ("📍 Location ".data ++ l ++ " • ".data ++ ("📅 ".data ++ d))) = true := by
    apply containsL_of_startsWith
    rfl
  have hlite : '💡' ∉ t ++ '\n' :: '\n' :: ("📄 Page ".data ++ p ++ " • ".data
      ++ ("📍 Location ".data ++ l ++ " • ".data ++ ("📅 ".data ++ d))) :=
    not_mem_append_chars (hTmem '💡' (by decide) (by decide))
      (not_mem_cons_of (by decide) (not_mem_cons_of (by decide)
        (not_mem_append_chars
          (not_mem_append_chars
            (not_mem_append_chars (by decide) (hPmem '💡' (by decide)))
            (by decide))
          (not_mem_append_chars
            (not_mem_append_chars
              (not_mem_append_chars (by decide) (hLmem '💡' (by decide)))
              (by decide))
            (not_mem_append_chars (by decide) (hDmem '💡' (by decide)))))))
  have hmain_q : cleanMainText (t ++ '\n' :: '\n' :: ("📄 Page ".data ++ p ++ " • ".data
      ++ ("📍 Location ".data ++ l ++ " • ".data ++ ("📅 ".data ++ d)))) = t :=
    cleanMainText_quote_eval (containsL_of_missing_char (by decide) hlite)
      hnl_t hnl_m hmark_t hmark_m htr
  -- the identity computed by the reader
  have hid : clipping_id_of t l p
      = strTrim (List.take 50 t ++ "|".data ++ l ++ "|".data ++ p) := by
    unfold clipping_id_of
    rw [htr, hlow]
  have hbar : ('|' : Char) ∈ List.take 50 t ++ "|".data ++ l ++ "|".data ++ p :=
    List.mem_append_left p
      (List.mem_append_right (List.take 50 t ++ "|".data ++ l) (by decide))
  have hcidne : clipping_id_of t l p ≠ [] := by
    rw [hid]
    exact strTrim_ne_nil hbar (by decide)
  have hnote_t : containsL "💡 NOTE\n\n".data t = false :=
    containsL_of_missing_char (by decide) (hTmem '💡' (by decide) (by decide))
  have hproc : processContent ⟨[], [], [], []⟩
      (t ++ '\n' :: '\n' :: ("📄 Page ".data ++ p ++ " • ".data
        ++ ("📍 Location ".data ++ l ++ " • ".data ++ ("📅 ".data ++ d))))
      = ⟨t, l, p, [clipping_id_of t l p]⟩ :=
    processContent_eval (isEmpty_false_of_ne (append_ne_nil_left htn))
      hloc hpg hmain_q htn hid hcidne
  have hflush : flushClipping ⟨t, l, p, [clipping_id_of t l p]⟩
      = ⟨[], [], [], [clipping_id_of t l p]⟩ :=
    flushClipping_keep htn htr hnl_t hnote_t hid hcidne
  cases b with
  | false =>
    have hblocks : create_formatted_clipping_block_raw
        ⟨t, p, l, d, false, clipping_id_of t l p⟩ true true
        = [Block.quote (t ++ '\n' :: '\n' :: ("📄 Page ".data ++ p ++ " • ".data
            ++ ("📍 Location ".data ++ l ++ " • ".data ++ ("📅 ".data ++ d)))),
           Block.divider] := by
      unfold create_formatted_clipping_block_raw
      simp only [hmd]
      rw [if_neg (by simp)]
      rw [if_neg (by simp [show (("📄 Page ".data ++ p ++ " • ".data
        ++ ("📍 Location ".data ++ l ++ " • ".data ++ ("📅 ".data ++ d))).isEmpty) = false
        from rfl])]
      rfl
    rw [hblocks]
    unfold retrieve_existing_clippings
    rw [List.foldl_cons, List.foldl_cons, List.foldl_nil]
    show (flushClipping (flushClipping (processContent ⟨[], [], [], []⟩ _))).ids = _
    rw [hproc, hflush, flushClipping_empty]
  | true =>
    have hmain_n : cleanMainText ("💡 NOTE\n\n".data
        ++ (t ++ '\n' :: '\n' :: ("📄 Page ".data ++ p ++ " • ".data
          ++ ("📍 Location ".data ++ l ++ " • ".data ++ ("📅 ".data ++ d))))) = t :=
      cleanMainText_note_eval rfl (containsL_of_missing_char (by decide) hlite)
        hnl_t hnl_m hmark_t hmark_m htr
    have hshape_loc_n : ("💡 NOTE\n\n".data : Str)
        ++ (t ++ '\n' :: '\n' :: ("📄 Page ".data ++ p ++ " • ".data
          ++ ("📍 Location ".data ++ l ++ " • ".data ++ ("📅 ".data ++ d))))
        = ("💡 NOTE\n\n".data ++ (t ++ '\n' :: '\n' :: ("📄 Page ".data ++ p
            ++ (' ' :: '•' :: ' ' :: ([] : Str)))))
          ++ ('📍' :: " Location".data)
          ++ ((' ' :: (l ++ [' '])) ++ '•' :: (' ' :: ("📅 ".data ++ d))) := by
      rw [hshape_loc]
      simp [List.append_assoc]
    have hloc_n : updLocation ("💡 NOTE\n\n".data
        ++ (t ++ '\n' :: '\n' :: ("📄 Page ".data ++ p ++ " • ".data
          ++ ("📍 Location ".data ++ l ++ " • ".data ++ ("📅 ".data ++ d))))) [] = l :=
      (updLocation_eval hshape_loc_n
        (not_mem_append_chars (by decide) hA_loc) hafter_loc hstop_loc).trans
        (strTrim_space_wrap hln hLws)
    have hshape_pg_n : ("💡 NOTE\n\n".data : Str)
        ++ (t ++ '\n' :: '\n' :: ("📄 Page ".data ++ p ++ " • ".data
          ++ ("📍 Location ".data ++ l ++ " • ".data ++ ("📅 ".data ++ d))))
        = ("💡 NOTE\n\n".data ++ (t ++ ('\n' :: '\n' :: ([] : Str))))
          ++ ('📄' :: " Page".data)
          ++ ((' ' :: (p ++ [' '])) ++ '•' :: (' ' :: ("📍 Location ".data ++ l
            ++ " • ".data ++ ("📅 ".data ++ d)))) := by
      rw [hshape_pg]
      simp [List.append_assoc]
    have hpg_n : updPage ("💡 NOTE\n\n".data
        ++ (t ++ '\n' :: '\n' :: ("📄 Page ".data ++ p ++ " • ".data
          ++ ("📍 Location ".data ++ l ++ " • ".data ++ ("📅 ".data ++ d))))) [] = p :=
      (updPage_eval hshape_pg_n
        (not_mem_append_chars (by decide) hA_pg) hafter_pg hstop_pg).trans
        (strTrim_space_wrap hpn hPws)
    have hproc_n : processContent ⟨[], [], [], []⟩
        ("💡 NOTE\n\n".data ++ (t ++ '\n' :: '\n' :: ("📄 Page ".data ++ p ++ " • ".data
          ++ ("📍 Location ".data ++ l ++ " • ".data ++ ("📅 ".data ++ d)))))
        = ⟨t, l, p, [clipping_id_of t l p]⟩ :=
      processContent_eval rfl hloc_n hpg_n hmain_n htn hid hcidne
    have hblocks : create_formatted_clipping_block_raw
        ⟨t, p, l, d, true, clipping_id_of t l p⟩ true true
        = [Block.callout ("💡 NOTE\n\n".data
            ++ (t ++ '\n' :: '\n' :: ("📄 Page ".data ++ p ++ " • ".data
              ++ ("📍 Location ".data ++ l ++ " • ".data ++ ("📅 ".data ++ d))))),
           Block.divider] := by
      unfold create_formatted_clipping_block_raw
      simp only [hmd]
      rw [if_pos (by simp)]
      rw [if_neg (by simp [show (("📄 Page ".data ++ p ++ " • ".data
        ++ ("📍 Location ".data ++ l ++ " • ".data ++ ("📅 ".data ++ d))).isEmpty) = false
        from rfl])]
      simp [List.append_assoc]
    rw [hblocks]
    unfold retrieve_existing_clippings
    rw [List.foldl_cons, List.foldl_cons, List.foldl_nil]
    show (flushClipping (flushClipping (processContent ⟨[], [], [], []⟩ _))).ids = _
    rw [hproc_n, hflush, flushClipping_empty]

/-- Witness for C3 (amended) at a concrete clean record. -/
theorem C3_round_trip_witness :
    retrieve_existing_clippings
        (create_formatted_clipping_block_raw
          ⟨"hello world".data, "12".data, "34".data, "monday".data, false,
           clipping_id_of "hello world".data "34".data "12".data⟩ true true)
      = [clipping_id_of "hello world".data "34".data "12".data] :=
  C3_round_trip_amended "hello world".data "12".data "34".data "monday".data false
    (by decide) (by decide) (by decide) (by decide) (by decide) (by decide)
    (by decide) (by decide) (by decide) (by decide)

/-- C5: the renderer always produces exactly one content block (a callout
carrying the note marker for notes, a quote otherwise) followed by exactly
one divider, and the metadata line joins, in order, the page part (iff
location display is on and page is non-empty), the location part (iff
location display is on and location is non-empty) and the date part (iff
date display is on and the date is non-empty), with the fixed separator
between present parts. -/
theorem C5_render_shape (c : ClippingData) (el ed : Bool) :
    ∃ tail,
      create_formatted_clipping_block_raw c el ed =
        [if c.is_note then Block.callout ("💡 NOTE\n\n".data ++ c.text ++ tail)
         else Block.quote (c.text ++ tail), Block.divider]
      ∧ metadata_text c el ed = joinSep " • ".data
          ((if el && !c.page.isEmpty then ["📄 Page ".data ++ c.page] else [])
            ++ (if el && !c.location.isEmpty then ["📍 Location ".data ++ c.location] else [])
            ++ (if ed && !c.date.isEmpty then ["📅 ".data ++ c.date] else [])) := by
  refine ⟨(if (metadata_text c el ed).isEmpty then []
      else "\n\n".data ++ metadata_text c el ed), ?_, ?_⟩
  · unfold create_formatted_clipping_block_raw
    cases hn : c.is_note <;> simp [hn]
  · unfold metadata_text metadata_parts
    cases el <;> cases ed <;> cases hp : c.page.isEmpty <;> cases hl : c.location.isEmpty
      <;> cases hd : c.date.isEmpty <;> simp [hp, hl, hd]

/-! ## RemoteBookLocator (`_query_database_for_title`)

The remote search is modelled by its drained data: the first result page
and the list of continuation pages.  A candidate records whether
`result.get("id")` was present, whether `pages.retrieve` raised, its
parent reference, and its extracted title text.  `none` for the whole
search input models an exception from the search call itself. -/

inductive ParentRef where
  | databaseRef (id : Str)
  | dataSourceRef (id : Str)
  | pageRef
  | noParent
deriving DecidableEq, Repr

structure Candidate where
  hasId : Bool
  retrieveFails : Bool
  parent : ParentRef
  pageTitle : Str
deriving DecidableEq, Repr

/-- `id.replace("-", "").lower()`. -/
def normalizeId (s : Str) : Str := strLower (replaceAll "-".data [] s)

/-- `page_title.strip().lower() == title.strip().lower()`. -/
def titleMatchesQ (q ct : Str) : Bool := decide (strLower (strTrim ct) = strLower (strTrim q))

/-- Body of the first-page result loop: `some c` means the loop returns
this candidate, `none` means it continues with the next one. -/
def firstPageStep (dbNorm : Str) (dsIds : List Str) (q : Str) (c : Candidate) :
    Option Candidate :=
  if !c.hasId then none
  else if c.retrieveFails then none
  else
    let pageDbId : Option Str :=
      match c.parent with
      | ParentRef.databaseRef i => some i
      | _ => none
    let pageDsId : Option Str :=
      match c.parent with
      | ParentRef.dataSourceRef i => some i
      | _ => none
    let isOurDb : Bool :=
      (match pageDbId with
       | some i => !i.isEmpty && decide (normalizeId i = dbNorm)
       | none => false)
      || (match pageDsId with
          | some i => !i.isEmpty && !dsIds.isEmpty && decide (normalizeId i ∈ dsIds)
          | none => false)
    if isOurDb then (if titleMatchesQ q c.pageTitle then some c else none) else none

/-- Body of the continuation-page result loop: here the code compares the
parent identifier (database or data-source form alike) against the
normalized database id only. -/
def contPageStep (dbNorm : Str) (q : Str) (c : Candidate) : Option Candidate :=
  if !c.hasId then none
  else if c.retrieveFails then none
  else
    let pageDbId : Option Str :=
      match c.parent with
      | ParentRef.databaseRef i => some i
      | ParentRef.dataSourceRef i => some i
      | _ => none
    match pageDbId with
    | some i =>
      if !i.isEmpty && decide (normalizeId i = dbNorm) then
        (if titleMatchesQ q c.pageTitle then some c else none)
      else none
    | none => none

/-- The first-page result loop. -/
def firstPageLoop (dbNorm : Str) (dsIds : List Str) (q : Str) :
    List Candidate → Option Candidate
  | [] => none
  | c :: rest =>
    match firstPageStep dbNorm dsIds q c with
    | some r => some r
    | none => firstPageLoop dbNorm dsIds q rest

/-- One continuation-page result loop. -/
def contPageLoop (dbNorm : Str) (q : Str) : List Candidate → Option Candidate
  | [] => none
  | c :: rest =>
    match contPageStep dbNorm q c with
    | some r => some r
    | none => contPageLoop dbNorm q rest

/-- The `while has_more` pagination loop. -/
def contPagesLoop (dbNorm : Str) (q : Str) : List (List Candidate) → Option Candidate
  | [] => none
  | pg :: rest =>
    match contPageLoop dbNorm q pg with
    | some r => some r
    | none => contPagesLoop dbNorm q rest

/-- `_query_database_for_title` over the drained search data; `none` input
models an exception from the search call (the outer `except` returns
`None`). -/
def query_database_for_title (dbIdFormatted : Str) (dsIdsNormalized : List Str) (q : Str)
    (searchResult : Option (List Candidate × List (List Candidate))) : Option Candidate :=
  match searchResult with
  | none => none
  | some (first, conts) =>
    let dbNorm := normalizeId dbIdFormatted
    match firstPageLoop dbNorm dsIdsNormalized q first with
    | some c => some c
    | none => contPagesLoop dbNorm q conts

/-- The acceptance condition the spec states, applied on the first page:
parent matches by collection id OR by data-source membership, and the
title matches. -/
def acceptFirst (dbNorm : Str) (dsIds : List Str) (q : Str) (c : Candidate) : Bool :=
  c.hasId && !c.retrieveFails
    && (match c.parent with
        | ParentRef.databaseRef i => !i.isEmpty && decide (normalizeId i = dbNorm)
        | ParentRef.dataSourceRef i =>
            !i.isEmpty && !dsIds.isEmpty && decide (normalizeId i ∈ dsIds)
        | _ => false)
    && titleMatchesQ q c.pageTitle

/-- The acceptance condition the code actually applies on continuation
pages: the parent identifier (either form) must equal the collection id. -/
def acceptCont (dbNorm : Str) (q : Str) (c : Candidate) : Bool :=
  c.hasId && !c.retrieveFails
    && (match c.parent with
        | ParentRef.databaseRef i => !i.isEmpty && decide (normalizeId i = dbNorm)
        | ParentRef.dataSourceRef i => !i.isEmpty && decide (normalizeId i = dbNorm)
        | _ => false)
    && titleMatchesQ q c.pageTitle

theorem firstPageStep_accept (dbNorm : Str) (dsIds : List Str) (q : Str) (c : Candidate) :
    firstPageStep dbNorm dsIds q c
      = if acceptFirst dbNorm dsIds q c then some c else none := by
  unfold firstPageStep acceptFirst
  cases hi : c.hasId <;> cases hr : c.retrieveFails <;> cases hp : c.parent <;>
    cases ht : titleMatchesQ q c.pageTitle <;>
      simp [hi, hr, hp, ht, Bool.and_assoc]

theorem contPageStep_accept (dbNorm : Str) (q : Str) (c : Candidate) :
    contPageStep dbNorm q c = if acceptCont dbNorm q c then some c else none := by
  unfold contPageStep acceptCont
  cases hi : c.hasId <;> cases hr : c.retrieveFails <;> cases hp : c.parent <;>
    cases ht : titleMatchesQ q c.pageTitle <;>
      simp [hi, hr, hp, ht, Bool.and_assoc]

theorem firstPageLoop_find (dbNorm : Str) (dsIds : List Str) (q : Str) :
    ∀ cs : List Candidate,
      firstPageLoop dbNorm dsIds q cs = cs.find? (acceptFirst dbNorm dsIds q) := by
  intro cs
  induction cs with
  | nil => rfl
  | cons c rest ih =>
    rw [firstPageLoop, firstPageStep_accept]
    cases ha : acceptFirst dbNorm dsIds q c with
    | true => simp [List.find?, ha]
    | false => simp [List.find?, ha, ih]

theorem contPageLoop_find (dbNorm : Str) (q : Str) :
    ∀ cs : List Candidate, contPageLoop dbNorm q cs = cs.find? (acceptCont dbNorm q) := by
  intro cs
  induction cs with
  | nil => rfl
  | cons c rest ih =>
    rw [contPageLoop, contPageStep_accept]
    cases ha : acceptCont dbNorm q c with
    | true => simp [List.find?, ha]
    | false => simp [List.find?, ha, ih]

theorem find?_first_of_pages {α : Type} (p : α → Bool) :
    ∀ l₁ l₂ : List α,
      (l₁ ++ l₂).find? p
        = match l₁.find? p with
          | some r => some r
          | none => l₂.find? p := by
  intro l₁ l₂
  induction l₁ with
  | nil => simp
  | cons a as ih =>
    cases hp : p a with
    | true => simp [List.find?, hp]
    | false => simp [List.find?, hp, ih]

theorem contPagesLoop_find (dbNorm : Str) (q : Str) :
    ∀ pgs : List (List Candidate),
      contPagesLoop dbNorm q pgs = pgs.flatten.find? (acceptCont dbNorm q) := by
  intro pgs
  induction pgs with
  | nil => rfl
  | cons pg rest ih =>
    rw [contPagesLoop, contPageLoop_find, ih,
      show (pg :: rest).flatten = pg ++ rest.flatten from rfl,
      find?_first_of_pages]
    cases List.find? (acceptCont dbNorm q) pg <;> rfl

/-! ## ReconciliationPolicy and SyncExecutor (`_add_book_to_notion`)

The outcome of the lookup phase of `_add_book_to_notion` (lines 715-739):
`notFound` = `_query_database_for_title` returned `None`; `foundNoId` = a
page came back without an `id`; `foundRetrieveError` = `pages.retrieve`
on the matched page raised; `found numberProp` = the page was retrieved,
with its `Highlights` number property (`none` when the property is absent,
not of number type, or `None` — all coerced to `0` by
`highlights_prop.get("number", 0) or 0`). -/

inductive Decision where
  | CREATE
  | NO_CHANGE_TOUCH_TIMESTAMP
  | REPLACE
deriving DecidableEq, Repr

inductive LookupOutcome where
  | notFound
  | foundNoId
  | foundRetrieveError
  | found (numberProp : Option Int)
deriving DecidableEq, Repr

/-- `highlights_prop.get("number", 0) or 0`. -/
def declaredCount (numberProp : Option Int) : Int := numberProp.getD 0

/-- The path `_add_book_to_notion` takes for one book, as a function of the
lookup outcome and the deduplicated clipping list. -/
def add_book_decision (lk : LookupOutcome) (formatted_clippings : List ClippingData) :
    Decision :=
  match lk with
  | LookupOutcome.found num =>
    if declaredCount num = (formatted_clippings.length : Int) then
      Decision.NO_CHANGE_TOUCH_TIMESTAMP
    else Decision.REPLACE
  | _ => Decision.CREATE

/-- A cover reference on a remote page (`page_data.get("cover")`). -/
inductive CoverRef where
  | externalCover (url : Str)
  | fileCover
deriving DecidableEq, Repr

/-- The remote writes `_add_book_to_notion` issues, in order. -/
inductive SyncAction where
  | createPage
  | retrievePage
  | archivePage
  | patchLastSynced
  | setCover (url : Str)
  | coverLookup
  | appendBatch (blocks : List Block)
deriving DecidableEq, Repr

def NO_COVER_IMG : Str := "https://via.placeholder.com/150x200?text=No%20Cover".data

/-- Fuel-driven worker for `chunked` (fuel `l.length` always suffices for a
positive chunk size). -/
def chunkedFuel (k : Nat) : Nat → List Block → List (List Block)
  | _, [] => []
  | 0, _ :: _ => []
  | Nat.succ f, x :: xs => (x :: xs).take k :: chunkedFuel k f ((x :: xs).drop k)

/-- `for i in range(0, len(l), k): l[i:i+k]` for `k > 0`. -/
def chunked (k : Nat) (l : List Block) : List (List Block) := chunkedFuel k l.length l

/-- The `all_blocks` list: the rendered blocks of every clipping in order. -/
def all_blocks (cs : List ClippingData) (enable_location enable_highlight_date : Bool) :
    List Block :=
  (cs.map (fun c => create_formatted_clipping_block_raw c enable_location
    enable_highlight_date)).flatten

/-- The batched `blocks.children.append` calls (batch size 100). -/
def appendBatchActions (cs : List ClippingData) (el ed : Bool) : List SyncAction :=
  (chunked 100 (all_blocks cs el ed)).map SyncAction.appendBatch

/-- Cover handling on the CREATE path: resolve via the external lookup and
set the result, or the placeholder. -/
def createCoverActions (enable_book_cover : Bool) (freshResult : Option Str) :
    List SyncAction :=
  if enable_book_cover then
    [SyncAction.coverLookup, SyncAction.setCover (freshResult.getD NO_COVER_IMG)]
  else []

/-- Cover handling on the REPLACE path: re-attach the old cover only when
one existed, covers are enabled, it is of external type and carries a
non-empty URL.  No fresh lookup happens here. -/
def restoreCoverActions (oldCover : Option CoverRef) (enable_book_cover : Bool) :
    List SyncAction :=
  match oldCover, enable_book_cover with
  | some (CoverRef.externalCover u), true =>
    if u.isEmpty then [] else [SyncAction.setCover u]
  | some CoverRef.fileCover, true => []
  | _, _ => []

def natStr (n : Nat) : Str := (Nat.repr n).data

def noChangesMessage : Str := "No changes needed.\n".data

/-- The message of the `diff_count` branch after a REPLACE (lines 919-925). -/
def replaceMessage (k : Int) (n : Nat) : Str :=
  let diff : Int := (n : Int) - k
  if 0 < diff then
    "Added ".data ++ natStr diff.toNat ++ " new highlights. Total: ".data
      ++ natStr n ++ ".\n".data
  else if diff < 0 then
    "Removed ".data ++ natStr diff.natAbs ++ " highlights. Total: ".data
      ++ natStr n ++ ".\n".data
  else
    "Updated highlights. Total: ".data ++ natStr n ++ ".\n".data

/-- The happy-path run of `_add_book_to_notion` for one book: the ordered
remote writes it issues and the status message it returns.  `oldCover` is
the cover of the previously synced page, `freshResult` the outcome of the
Google Books lookup when it is performed. -/
def add_book_to_notion_run (lk : LookupOutcome) (cs : List ClippingData)
    (oldCover : Option CoverRef) (enable_book_cover el ed : Bool)
    (freshResult : Option Str) : List SyncAction × Str :=
  match lk with
  | LookupOutcome.found num =>
    if declaredCount num = (cs.length : Int) then
      ([SyncAction.patchLastSynced], noChangesMessage)
    else
      ([SyncAction.retrievePage, SyncAction.archivePage, SyncAction.createPage]
         ++ restoreCoverActions oldCover enable_book_cover
         ++ appendBatchActions cs el ed,
       replaceMessage (declaredCount num) cs.length)
  | _ =>
    ([SyncAction.createPage] ++ appendBatchActions cs el ed
       ++ createCoverActions enable_book_cover freshResult,
     "Added ".data ++ natStr cs.length ++ " highlights.\n".data)

/-! ### Batching lemmas -/

theorem chunkedFuel_congr (k : Nat) (hk : 0 < k) :
    ∀ (f f' : Nat) (l : List Block), l.length ≤ f → l.length ≤ f' →
      chunkedFuel k f l = chunkedFuel k f' l := by
  intro f
  induction f with
  | zero =>
    intro f' l h _
    have hl : l = [] := List.eq_nil_of_length_eq_zero (Nat.le_zero.mp h)
    subst hl
    cases f' <;> rfl
  | succ n ih =>
    intro f' l h h'
    cases l with
    | nil => cases f' <;> rfl
    | cons x xs =>
      cases f' with
      | zero => simp at h'
      | succ m =>
        show (x :: xs).take k :: chunkedFuel k n ((x :: xs).drop k)
          = (x :: xs).take k :: chunkedFuel k m ((x :: xs).drop k)
        congr 1
        have hdl : ((x :: xs).drop k).length = (x :: xs).length - k := List.length_drop ..
        apply ih
        · rw [hdl]
          simp only [List.length_cons] at h ⊢
          omega
        · rw [hdl]
          simp only [List.length_cons] at h' ⊢
          omega

theorem chunked_nil (k : Nat) : chunked k [] = [] := rfl

theorem chunked_cons (k : Nat) (hk : 0 < k) (l : List Block) (hl : l ≠ []) :
    chunked k l = l.take k :: chunked k (l.drop k) := by
  obtain ⟨x, xs, rfl⟩ := List.exists_cons_of_ne_nil hl
  show chunkedFuel k (x :: xs).length (x :: xs) = _
  rw [show (x :: xs).length = xs.length + 1 from rfl]
  show (x :: xs).take k :: chunkedFuel k xs.length ((x :: xs).drop k) = _
  congr 1
  apply chunkedFuel_congr k hk
  · rw [List.length_drop]
    simp only [List.length_cons]
    omega
  · exact le_refl _

theorem chunked_flatten (k : Nat) (hk : 0 < k) :
    ∀ l : List Block, (chunked k l).flatten = l := by
  suffices h : ∀ (n : Nat) (l : List Block), l.length = n → (chunked k l).flatten = l by
    exact fun l => h l.length l rfl
  intro n
  induction n using Nat.strong_induction_on with
  | _ n ih =>
    intro l hn
    cases l with
    | nil => simp [chunked_nil]
    | cons x xs =>
      rw [chunked_cons k hk _ (by simp),
        show ((x :: xs).take k :: chunked k ((x :: xs).drop k)).flatten
          = (x :: xs).take k ++ (chunked k ((x :: xs).drop k)).flatten from rfl]
      rw [ih ((x :: xs).drop k).length ?_ _ rfl]
      · exact List.take_append_drop k (x :: xs)
      · subst hn
        rw [List.length_drop]
        simp only [List.length_cons]
        omega

theorem chunked_le (k : Nat) (hk : 0 < k) :
    ∀ l : List Block, ∀ b ∈ chunked k l, b.length ≤ k := by
  suffices h : ∀ (n : Nat) (l : List Block), l.length = n →
      ∀ b ∈ chunked k l, b.length ≤ k by
    exact fun l => h l.length l rfl
  intro n
  induction n using Nat.strong_induction_on with
  | _ n ih =>
    intro l hn
    cases l with
    | nil => simp [chunked_nil]
    | cons x xs =>
      rw [chunked_cons k hk _ (by simp)]
      intro b hb
      rcases List.mem_cons.mp hb with hb | hb
      · subst hb
        rw [List.length_take]
        exact Nat.min_le_left _ _
      · refine ih ((x :: xs).drop k).length ?_ _ rfl b hb
        subst hn
        rw [List.length_drop]
        simp only [List.length_cons]
        omega

theorem chunked_sizes_500 (l : List Block) (hl : l.length = 500) :
    (chunked 100 l).map List.length = [100, 100, 100, 100, 100] := by
  have hne : ∀ m : List Block, m.length ≠ 0 → m ≠ [] := by
    intro m h1 h2
    subst h2
    simp at h1
  have e1 : (l.drop 100).length = 400 := by rw [List.length_drop, hl]
  have e2 : ((l.drop 100).drop 100).length = 300 := by rw [List.length_drop, e1]
  have e3 : (((l.drop 100).drop 100).drop 100).length = 200 := by
    rw [List.length_drop, e2]
  have e4 : ((((l.drop 100).drop 100).drop 100).drop 100).length = 100 := by
    rw [List.length_drop, e3]
  have e5 : (((((l.drop 100).drop 100).drop 100).drop 100).drop 100).length = 0 := by
    rw [List.length_drop, e4]
  rw [chunked_cons 100 (by norm_num) l (hne l (by rw [hl]; decide)),
    chunked_cons 100 (by norm_num) _ (hne _ (by rw [e1]; decide)),
    chunked_cons 100 (by norm_num) _ (hne _ (by rw [e2]; decide)),
    chunked_cons 100 (by norm_num) _ (hne _ (by rw [e3]; decide)),
    chunked_cons 100 (by norm_num) _ (hne _ (by rw [e4]; decide)),
    List.eq_nil_of_length_eq_zero e5, chunked_nil]
  simp only [List.map_cons, List.map_nil, List.length_take, hl, e1, e2, e3, e4]
  decide

theorem render_length (c : ClippingData) (el ed : Bool) :
    (create_formatted_clipping_block_raw c el ed).length = 2 := by
  unfold create_formatted_clipping_block_raw
  cases c.is_note <;> simp

theorem all_blocks_length (cs : List ClippingData) (el ed : Bool) :
    (all_blocks cs el ed).length = 2 * cs.length := by
  induction cs with
  | nil => rfl
  | cons c rest ih =>
    unfold all_blocks at ih ⊢
    simp only [List.map_cons, List.flatten_cons, List.length_append, ih,
      render_length, List.length_cons]
    omega

/-- A sample deduplicated clipping used by concrete witnesses. -/
def sampleClipping : ClippingData :=
  ⟨"hello".data, "1".data, "2".data, "monday".data, false,
    clipping_id_of "hello".data "2".data "1".data⟩

/-! ### Claim theorems about the executor -/

/-- C1: reconciliation decision rule.  No record found means CREATE; a
found record with declared Highlights count `k` takes the NO_CHANGE path
iff `k` equals the post-dedup clipping count and the REPLACE path iff it
differs; the decision depends only on the clipping count, never on the
clipping identities; and the NO_CHANGE path issues exactly one write, the
Last Synced property patch, leaving content untouched. -/
theorem C1_reconciliation_decision :
    (∀ cs : List ClippingData,
      add_book_decision LookupOutcome.notFound cs = Decision.CREATE)
    ∧ (∀ (k : Int) (cs : List ClippingData),
        (add_book_decision (LookupOutcome.found (some k)) cs
            = Decision.NO_CHANGE_TOUCH_TIMESTAMP ↔ k = (cs.length : Int))
        ∧ (add_book_decision (LookupOutcome.found (some k)) cs
            = Decision.REPLACE ↔ k ≠ (cs.length : Int)))
    ∧ (∀ (lk : LookupOutcome) (cs cs' : List ClippingData), cs.length = cs'.length →
        add_book_decision lk cs = add_book_decision lk cs')
    ∧ (∀ (num : Option Int) (cs : List ClippingData) (oldCover : Option CoverRef)
        (enc el ed : Bool) (fr : Option Str), declaredCount num = (cs.length : Int) →
          add_book_to_notion_run (LookupOutcome.found num) cs oldCover enc el ed fr
            = ([SyncAction.patchLastSynced], noChangesMessage)) := by
  refine ⟨fun cs => rfl, ?_, ?_, ?_⟩
  · intro k cs
    have hd : declaredCount (some k) = k := rfl
    simp only [add_book_decision, hd]
    by_cases hk : k = (cs.length : Int)
    · rw [if_pos hk]
      exact ⟨by simp [hk], by simp [hk]⟩
    · rw [if_neg hk]
      exact ⟨by simp [hk], by simp [hk]⟩
  · intro lk cs cs' h
    cases lk <;> simp [add_book_decision, h]
  · intro num cs oc enc el ed fr h
    simp only [add_book_to_notion_run]
    rw [if_pos h]

/-- Witness for C1 at a concrete found book with matching count. -/
theorem C1_reconciliation_witness :
    add_book_to_notion_run (LookupOutcome.found (some 1)) [sampleClipping]
        none false false false none
      = ([SyncAction.patchLastSynced], noChangesMessage) :=
  C1_reconciliation_decision.2.2.2 (some 1) [sampleClipping] none false false false none
    (by decide)

/-- C6 (amended): every clipping renders to TWO blocks (one content block
plus one divider), so 250 clippings produce 500 blocks and the append
batches have sizes [100, 100, 100, 100, 100] — not [100, 100, 50]; the
batches concatenate back to the original ordered block sequence and no
batch exceeds 100 blocks. -/
theorem C6_batching_amended (cs : List ClippingData) (el ed : Bool)
    (h : cs.length = 250) :
    (chunked 100 (all_blocks cs el ed)).map List.length = [100, 100, 100, 100, 100]
    ∧ (chunked 100 (all_blocks cs el ed)).flatten = all_blocks cs el ed
    ∧ ∀ b ∈ chunked 100 (all_blocks cs el ed), b.length ≤ 100 := by
  have hlen : (all_blocks cs el ed).length = 500 := by
    rw [all_blocks_length, h]
  exact ⟨chunked_sizes_500 _ hlen, chunked_flatten 100 (by norm_num) _,
    chunked_le 100 (by norm_num) _⟩

/-- Witness for C6 (amended) at a concrete 250-clipping list. -/
theorem C6_batching_witness :
    (chunked 100 (all_blocks (List.replicate 250 sampleClipping) true true)).map List.length
        = [100, 100, 100, 100, 100]
    ∧ (chunked 100 (all_blocks (List.replicate 250 sampleClipping) true true)).flatten
        = all_blocks (List.replicate 250 sampleClipping) true true
    ∧ ∀ b ∈ chunked 100 (all_blocks (List.replicate 250 sampleClipping) true true),
        b.length ≤ 100 :=
  C6_batching_amended (List.replicate 250 sampleClipping) true true (by simp)

/-- C6: the claim is false as stated — 250 clippings do NOT produce batches
[100, 100, 50]: each clipping contributes two blocks, so the batches are
five of 100. -/
theorem C6_counterexample :
    (chunked 100 (all_blocks (List.replicate 250 sampleClipping) true true)).map List.length
      ≠ [100, 100, 50] := by
  rw [chunked_sizes_500 _ (by rw [all_blocks_length]; simp)]
  decide

/-! ### Claim theorems about the locator -/

/-- C7 counterexample input: a candidate whose parent is a data source in
the collection's set and whose title matches. -/
def c7cand : Candidate := ⟨true, false, ParentRef.dataSourceRef "s".data, "t".data⟩

/-- C7: the claim is false as stated.  The candidate satisfies the
acceptance condition the claim states for every page (data-source
membership plus title match — exactly what the first-page loop checks),
but because it only appears on a continuation page, where the code
compares the parent id against the database id alone, the locator returns
NotFound. -/
theorem C7_counterexample :
    query_database_for_title "d".data ["s".data] "t".data (some ([], [[c7cand]])) = none
    ∧ acceptFirst (normalizeId "d".data) ["s".data] "t".data c7cand = true := by
  decide

/-- C7 (amended): the locator returns the first candidate, in page order,
accepted by a page-position-dependent condition: on the first page of
search results a candidate is accepted iff it has an id, its retrieval
succeeded, its parent matches the collection by database id OR by
membership in the data-source id set, and its title matches
case-insensitively after trimming; on continuation pages the data-source
membership check is dropped — the parent id (either form) must equal the
collection id itself.  NotFound is returned iff no candidate on any drained
page is accepted. -/
theorem C7_locator_amended (db : Str) (ds : List Str) (q : Str)
    (first : List Candidate) (conts : List (List Candidate)) :
    query_database_for_title db ds q (some (first, conts))
      = (match first.find? (acceptFirst (normalizeId db) ds q) with
         | some c => some c
         | none => conts.flatten.find? (acceptCont (normalizeId db) q))
    ∧ (query_database_for_title db ds q (some (first, conts)) = none ↔
        (∀ c ∈ first, acceptFirst (normalizeId db) ds q c = false)
        ∧ (∀ c ∈ conts.flatten, acceptCont (normalizeId db) q c = false)) := by
  have h1 : query_database_for_title db ds q (some (first, conts))
      = match first.find? (acceptFirst (normalizeId db) ds q) with
        | some c => some c
        | none => conts.flatten.find? (acceptCont (normalizeId db) q) := by
    simp only [query_database_for_title]
    rw [firstPageLoop_find, contPagesLoop_find]
  refine ⟨h1, ?_⟩
  rw [h1]
  cases hf : first.find? (acceptFirst (normalizeId db) ds q) with
  | some c =>
    simp only
    constructor
    · intro h
      cases h
    · rintro ⟨hall, _⟩
      have hacc := List.find?_some hf
      have hmem := List.mem_of_find?_eq_some hf
      rw [hall c hmem] at hacc
      cases hacc
  | none =>
    simp only
    constructor
    · intro h
      refine ⟨?_, ?_⟩
      · intro c hc
        have := List.find?_eq_none.mp hf c hc
        revert this
        cases acceptFirst (normalizeId db) ds q c <;> simp
      · intro c hc
        have := List.find?_eq_none.mp h c hc
        revert this
        cases acceptCont (normalizeId db) q c <;> simp
    · rintro ⟨_, h2⟩
      apply List.find?_eq_none.mpr
      intro c hc
      simp [h2 c hc]

/-- Flattened continuation pages used by the C7 witness. -/
theorem C7_locator_witness :
    query_database_for_title "d".data ["s".data] "t".data (some ([], [[c7cand]]))
      = (match List.find? (acceptFirst (normalizeId "d".data) ["s".data] "t".data) [] with
         | some c => some c
         | none => List.find? (acceptCont (normalizeId "d".data) "t".data)
             ([[c7cand]] : List (List Candidate)).flatten) :=
  (C7_locator_amended "d".data ["s".data] "t".data [] [[c7cand]]).1

/-- Step lemma: a candidate whose retrieval fails is skipped on the first
page. -/
theorem firstPageStep_fails {db : Str} {ds : List Str} {q : Str} {c : Candidate}
    (h : c.retrieveFails = true) : firstPageStep db ds q c = none := by
  unfold firstPageStep
  cases hi : c.hasId <;> simp [hi, h]

/-- Step lemma: a candidate whose retrieval fails is skipped on a
continuation page. -/
theorem contPageStep_fails {db q : Str} {c : Candidate} (h : c.retrieveFails = true) :
    contPageStep db q c = none := by
  unfold contPageStep
  cases hi : c.hasId <;> simp [hi, h]

theorem firstPageLoop_skip (db : Str) (ds : List Str) (q : Str)
    (pre post : List Candidate) (bad : Candidate) (h : bad.retrieveFails = true) :
    firstPageLoop db ds q (pre ++ bad :: post) = firstPageLoop db ds q (pre ++ post) := by
  induction pre with
  | nil =>
    simp only [List.nil_append]
    rw [firstPageLoop, firstPageStep_fails h]
  | cons c rest ih =>
    simp only [List.cons_append]
    rw [firstPageLoop, firstPageLoop, ih]

theorem contPageLoop_skip (db q : Str) (pre post : List Candidate) (bad : Candidate)
    (h : bad.retrieveFails = true) :
    contPageLoop db q (pre ++ bad :: post) = contPageLoop db q (pre ++ post) := by
  induction pre with
  | nil =>
    simp only [List.nil_append]
    rw [contPageLoop, contPageStep_fails h]
  | cons c rest ih =>
    simp only [List.cons_append]
    rw [contPageLoop, contPageLoop, ih]

/-- C8: fail-open error handling.  An exception from the search call makes
the locator report NotFound; a candidate whose individual retrieval fails
is skipped (on the first page and on continuation pages alike) without
affecting the result; and a failure while retrieving the matched record's
properties sends the book to the CREATE path. -/
theorem C8_fail_open :
    (∀ (db : Str) (ds : List Str) (q : Str), query_database_for_title db ds q none = none)
    ∧ (∀ (db : Str) (ds : List Str) (q : Str) (pre post : List Candidate) (bad : Candidate),
        bad.retrieveFails = true →
          firstPageLoop db ds q (pre ++ bad :: post) = firstPageLoop db ds q (pre ++ post))
    ∧ (∀ (db q : Str) (pre post : List Candidate) (bad : Candidate),
        bad.retrieveFails = true →
          contPageLoop db q (pre ++ bad :: post) = contPageLoop db q (pre ++ post))
    ∧ (∀ cs : List ClippingData,
        add_book_decision LookupOutcome.foundRetrieveError cs = Decision.CREATE) :=
  ⟨fun _ _ _ => rfl,
   fun db ds q pre post bad h => firstPageLoop_skip db ds q pre post bad h,
   fun db q pre post bad h => contPageLoop_skip db q pre post bad h,
   fun _ => rfl⟩

/-- A candidate whose retrieval fails, used by the C8 witness. -/
def c8bad : Candidate := ⟨true, true, ParentRef.databaseRef "d".data, "t".data⟩

/-- Witness for C8 at a concrete failing candidate. -/
theorem C8_fail_open_witness :
    firstPageLoop "d".data ["s".data] "t".data ([] ++ c8bad :: [])
      = firstPageLoop "d".data ["s".data] "t".data ([] ++ []) :=
  C8_fail_open.2.1 "d".data ["s".data] "t".data [] [] c8bad (by decide)

/-! ### Claim theorems about REPLACE cover handling and the messages -/

theorem restoreCoverActions_mem (oldCover : Option CoverRef) (enc : Bool) (a : SyncAction) :
    a ∈ restoreCoverActions oldCover enc
      ↔ ∃ u, a = SyncAction.setCover u ∧ oldCover = some (CoverRef.externalCover u)
          ∧ enc = true ∧ u ≠ [] := by
  cases oldCover with
  | none => cases enc <;> simp [restoreCoverActions]
  | some cv =>
    cases cv with
    | externalCover u =>
      cases enc with
      | false => simp [restoreCoverActions]
      | true =>
        cases u with
        | nil => simp [restoreCoverActions]
        | cons uc us =>
          constructor
          · intro h
            have h2 : a = SyncAction.setCover (uc :: us) := by
              simpa [restoreCoverActions] using h
            exact ⟨uc :: us, h2, rfl, rfl, by simp⟩
          · rintro ⟨u, h1, h2, _, _⟩
            have h3 : u = uc :: us :=
              (CoverRef.externalCover.inj (Option.some.inj h2)).symm
            subst h3
            subst h1
            simp [restoreCoverActions]
    | fileCover => cases enc <;> simp [restoreCoverActions]

theorem appendBatchActions_shape (cs : List ClippingData) (el ed : Bool) (a : SyncAction)
    (ha : a ∈ appendBatchActions cs el ed) : ∃ b, a = SyncAction.appendBatch b := by
  unfold appendBatchActions at ha
  obtain ⟨b, _, rfl⟩ := List.mem_map.mp ha
  exact ⟨b, rfl⟩

/-- C9 (amended): whenever the REPLACE path runs, the old record is
archived and a new record is created; the old cover is re-attached iff
covers are enabled and the old record carried an external cover with a
non-empty URL (a file-type cover is dropped); and NO fresh cover is
resolved via the external lookup on this path — the claimed fallback
lookup does not exist in the code. -/
theorem C9_replace_cover_amended (num : Option Int) (cs : List ClippingData)
    (oldCover : Option CoverRef) (enc el ed : Bool) (fr : Option Str)
    (h : declaredCount num ≠ (cs.length : Int)) :
    SyncAction.archivePage
        ∈ (add_book_to_notion_run (LookupOutcome.found num) cs oldCover enc el ed fr).fst
    ∧ SyncAction.createPage
        ∈ (add_book_to_notion_run (LookupOutcome.found num) cs oldCover enc el ed fr).fst
    ∧ (∀ u : Str, SyncAction.setCover u
          ∈ (add_book_to_notion_run (LookupOutcome.found num) cs oldCover enc el ed fr).fst
        ↔ (enc = true ∧ oldCover = some (CoverRef.externalCover u) ∧ u ≠ []))
    ∧ SyncAction.coverLookup
        ∉ (add_book_to_notion_run (LookupOutcome.found num) cs oldCover enc el ed fr).fst := by
  have hrun : (add_book_to_notion_run (LookupOutcome.found num) cs oldCover enc el ed fr).fst
      = [SyncAction.retrievePage, SyncAction.archivePage, SyncAction.createPage]
          ++ restoreCoverActions oldCover enc ++ appendBatchActions cs el ed := by
    simp only [add_book_to_notion_run]
    rw [if_neg h]
  rw [hrun]
  refine ⟨by simp, by simp, ?_, ?_⟩
  · intro u
    constructor
    · intro hm
      rcases List.mem_append.mp hm with hm | hm
      · rcases List.mem_append.mp hm with hm | hm
        · simp at hm
        · obtain ⟨u', he, hc, henc, hne⟩ := (restoreCoverActions_mem _ _ _).mp hm
          cases he
          exact ⟨henc, hc, hne⟩
      · obtain ⟨b, hb⟩ := appendBatchActions_shape cs el ed _ hm
        cases hb
    · rintro ⟨h1, h2, h3⟩
      apply List.mem_append_left
      apply List.mem_append_right
      exact (restoreCoverActions_mem _ _ _).mpr ⟨u, rfl, h2, h1, h3⟩
  · intro hm
    rcases List.mem_append.mp hm with hm | hm
    · rcases List.mem_append.mp hm with hm | hm
      · simp at hm
      · obtain ⟨u', he, _⟩ := (restoreCoverActions_mem _ _ _).mp hm
        cases he
    · obtain ⟨b, hb⟩ := appendBatchActions_shape cs el ed _ hm
      cases hb

/-- Witness for C9 (amended) at a concrete REPLACE with an external cover. -/
theorem C9_replace_cover_witness :
    SyncAction.archivePage
        ∈ (add_book_to_notion_run (LookupOutcome.found (some 5)) [sampleClipping]
            (some (CoverRef.externalCover "u".data)) true true true none).fst
    ∧ SyncAction.createPage
        ∈ (add_book_to_notion_run (LookupOutcome.found (some 5)) [sampleClipping]
            (some (CoverRef.externalCover "u".data)) true true true none).fst
    ∧ (∀ u : Str, SyncAction.setCover u
          ∈ (add_book_to_notion_run (LookupOutcome.found (some 5)) [sampleClipping]
              (some (CoverRef.externalCover "u".data)) true true true none).fst
        ↔ (true = true ∧ (some (CoverRef.externalCover "u".data) : Option CoverRef)
              = some (CoverRef.externalCover u) ∧ u ≠ []))
    ∧ SyncAction.coverLookup
        ∉ (add_book_to_notion_run (LookupOutcome.found (some 5)) [sampleClipping]
            (some (CoverRef.externalCover "u".data)) true true true none).fst :=
  C9_replace_cover_amended (some 5) [sampleClipping]
    (some (CoverRef.externalCover "u".data)) true true true none (by decide)

/-- C9: the claim is false as stated.  A REPLACE run (counts differ) with
covers enabled and no preserved cover issues NO external cover lookup —
the claimed fresh-cover fallback never happens on the REPLACE path. -/
theorem C9_counterexample :
    declaredCount (some 5) ≠ (([sampleClipping] : List ClippingData).length : Int)
    ∧ SyncAction.coverLookup
        ∉ (add_book_to_notion_run (LookupOutcome.found (some 5)) [sampleClipping]
            none true true true none).fst := by
  decide

theorem str_ne_of_head {a b : Char} {x y : Str} (hab : a ≠ b)
    (hx : x.head? = some a) (hy : y.head? = some b) : x ≠ y := by
  intro h
  subst h
  rw [hx] at hy
  exact hab (Option.some.inj hy)

/-- C10: the "Updated highlights." status is unreachable.  For every found
book, the run's message is never the "Updated highlights. Total: N." string:
equal counts return "No changes needed." before the REPLACE branch, and in
the REPLACE branch the count difference is non-zero, so the message is
always an "Added K new highlights." or "Removed K highlights." form. -/
theorem C10_updated_unreachable (num : Option Int) (cs : List ClippingData)
    (oldCover : Option CoverRef) (enc el ed : Bool) (fr : Option Str) :
    (add_book_to_notion_run (LookupOutcome.found num) cs oldCover enc el ed fr).snd
      ≠ "Updated highlights. Total: ".data ++ natStr cs.length ++ ".\n".data := by
  simp only [add_book_to_notion_run]
  by_cases h : declaredCount num = (cs.length : Int)
  · rw [if_pos h]
    exact str_ne_of_head (show ('N' : Char) ≠ 'U' by decide) rfl rfl
  · rw [if_neg h]
    show replaceMessage (declaredCount num) cs.length ≠ _
    unfold replaceMessage
    by_cases h1 : 0 < (cs.length : Int) - declaredCount num
    · rw [if_pos h1]
      exact str_ne_of_head (show ('A' : Char) ≠ 'U' by decide) rfl rfl
    · have h2 : (cs.length : Int) - declaredCount num < 0 := by omega
      rw [if_neg h1, if_pos h2]
      exact str_ne_of_head (show ('R' : Char) ≠ 'U' by decide) rfl rfl

/-- Witness for C10 at a concrete found book. -/
theorem C10_updated_witness :
    (add_book_to_notion_run (LookupOutcome.found (some 5)) [sampleClipping]
        none false false false none).snd
      ≠ "Updated highlights. Total: ".data
          ++ natStr ([sampleClipping] : List ClippingData).length ++ ".\n".data :=
  C10_updated_unreachable (some 5) [sampleClipping] none false false false none

end Kindle2Notion
